import Mathlib

/-!
Verification development for the kubricate Secret Resolution & Injection
Engine and its in-memory filesystem test harness.

The repository ships only callers of the engine (stack definitions calling
`useSecrets`, a `SecretManager` setup calling `addConnector` / `addProvider` /
`addSecret`) and the unit tests of `InMemoryFileSystem`; the implementation
files themselves are not present.  Every definition below is therefore
modelled from the design specification (sections 3, 4.1-4.4, 5, 7) and, for
the filesystem, from the behaviour its unit tests document.
-/

namespace Kubricate

abbrev SecretName := String
abbrev FieldName := String
abbrev UnitId := String
abbrev TargetKind := String
abbrev TargetOptions := String
abbrev RawValue := String

/-- Modelled from the spec: outcome of a Connector `fetch` call — a raw value,
an explicit absence (turned into `UnresolvedValueError` by the engine), or a
source failure (`SourceUnavailableError`).  The implementation of the
connector plugins is missing from the sources. -/
inductive FetchOutcome where
  | value (v : RawValue)
  | absent
  | unavailable
deriving DecidableEq, Repr

/-- Modelled from the spec: a Connector is a pure lookup capability
`fetch(secretName, fieldName) -> rawValue | absent`, possibly failing. -/
structure Connector where
  fetch : SecretName → FieldName → FetchOutcome

/-- Modelled from the spec: one entry of a provider field schema — a field
name together with the set of injection kinds allowed for it. -/
structure FieldSpec where
  fieldName : FieldName
  allowedKinds : List TargetKind
deriving DecidableEq, Repr

/-- Modelled from the spec: a Provider owns a fixed ordered field schema and
an all-or-nothing materialization policy flag.  The provider plugin
implementations are missing from the sources. -/
structure Provider where
  fieldSchema : List FieldSpec
  requireAll : Bool
deriving DecidableEq, Repr

/-- Modelled from the spec: a secret declaration stored by the registry after
`addSecret` has resolved the defaulting of the connector id. -/
structure SecretDeclaration where
  name : SecretName
  providerId : String
  connectorId : String
deriving DecidableEq, Repr

/-- Modelled from the spec: the input record of `addSecret`; the connector id
is optional and defaults to the registry-wide default connector, exactly as in
the `setup-secrets.ts` example which omits it. -/
structure SecretInput where
  name : SecretName
  provider : String
  connector : Option String := none

/-- Modelled from the spec: the Secret Registry — three independent
namespaces of connector ids, provider ids and secret names. -/
structure Registry where
  connectors : List (String × Connector)
  providers : List (String × Provider)
  secrets : List SecretDeclaration

/-- Modelled from the spec: the declaration-time error taxonomy of §7. -/
inductive RegError where
  | DuplicateIdentifierError (namespaceName id : String)
  | UnknownProviderError (id : String)
  | UnknownConnectorError (id : String)
deriving DecidableEq, Repr

/-- Modelled from the spec: `addConnector` fails with
`DuplicateIdentifierError` when the id is already taken in the connector
namespace. -/
def addConnector (r : Registry) (id : String) (c : Connector) : Except RegError Registry :=
  if (r.connectors.map Prod.fst).contains id then
    .error (.DuplicateIdentifierError "connector" id)
  else
    .ok { r with connectors := r.connectors ++ [(id, c)] }

/-- Modelled from the spec: `addProvider` fails with
`DuplicateIdentifierError` when the id is already taken in the provider
namespace. -/
def addProvider (r : Registry) (id : String) (p : Provider) : Except RegError Registry :=
  if (r.providers.map Prod.fst).contains id then
    .error (.DuplicateIdentifierError "provider" id)
  else
    .ok { r with providers := r.providers ++ [(id, p)] }

/-- Modelled from the spec: `addSecret` checks the secret-name namespace,
then that the referenced provider and connector are already registered;
an omitted connector id defaults to the first registered connector. -/
def addSecret (r : Registry) (d : SecretInput) : Except RegError Registry :=
  if (r.secrets.map SecretDeclaration.name).contains d.name then
    .error (.DuplicateIdentifierError "secret" d.name)
  else if !((r.providers.map Prod.fst).contains d.provider) then
    .error (.UnknownProviderError d.provider)
  else
    match d.connector with
    | some cid =>
      if (r.connectors.map Prod.fst).contains cid then
        .ok { r with secrets := r.secrets ++ [⟨d.name, d.provider, cid⟩] }
      else
        .error (.UnknownConnectorError cid)
    | none =>
      match r.connectors with
      | [] => .error (.UnknownConnectorError "")
      | (cid, _) :: _ => .ok { r with secrets := r.secrets ++ [⟨d.name, d.provider, cid⟩] }

/-- Modelled from the spec: the materialized resource for one secret — the
persisted object, holding the resolved data of the schema-declared fields. -/
structure Resource where
  name : String
  dataFields : List (FieldName × RawValue)
deriving DecidableEq, Repr

/-- Modelled from the spec: an injection fragment is a reference to the
materialized resource (resource name plus field key) together with the
injection kind and target options; it never carries a raw value. -/
structure Fragment where
  resourceRef : String
  fieldKey : FieldName
  kind : TargetKind
  options : TargetOptions
deriving DecidableEq, Repr

/-- Modelled from the spec: provider-contract violations of §7. -/
inductive ProviderError where
  | FieldNotSupportedError (providerId : String) (fieldName : FieldName)
  | KindNotSupportedError (providerId : String) (fieldName : FieldName) (kind : TargetKind)
  | IncompleteFieldSetError (secretName : SecretName) (missing : FieldName)
deriving DecidableEq, Repr

/-- Modelled from the spec: `materialize` builds the persisted resource from
the resolved field values, keeping only schema-declared fields, and fails with
`IncompleteFieldSetError` when the all-or-nothing policy finds a schema field
absent from the supplied values. -/
def materialize (p : Provider) (s : SecretName) (values : List (FieldName × RawValue)) :
    Except ProviderError Resource :=
  match (if p.requireAll then
           p.fieldSchema.find? (fun fs => !((values.map Prod.fst).contains fs.fieldName))
         else none) with
  | some fs => .error (.IncompleteFieldSetError s fs.fieldName)
  | none => .ok { name := s
                  dataFields := values.filter (fun fv => (p.fieldSchema.map FieldSpec.fieldName).contains fv.1) }

/-- Modelled from the spec: `buildInjectionFragment` fails with
`FieldNotSupportedError` when the field is not in the schema, with
`KindNotSupportedError` when the kind is not allowed for that field, and
otherwise returns a fragment referencing the materialized resource. -/
def buildInjectionFragment (p : Provider) (pid : String) (s : SecretName) (f : FieldName)
    (k : TargetKind) (o : TargetOptions) : Except ProviderError Fragment :=
  match p.fieldSchema.find? (fun fs => fs.fieldName == f) with
  | none => .error (.FieldNotSupportedError pid f)
  | some fs =>
    if fs.allowedKinds.contains k then
      .ok { resourceRef := s, fieldKey := f, kind := k, options := o }
    else
      .error (.KindNotSupportedError pid f k)

/-- Modelled from the spec: an injection request accumulated from a
deployment unit — "unit U wants field F of secret S injected via kind K with
options O".  The target options carry the identifying option of the target
(for the `env` kind, the environment variable name). -/
structure InjectionRequest where
  secretName : SecretName
  fieldName : FieldName
  ownerUnitId : UnitId
  targetKind : TargetKind
  targetOptions : TargetOptions
deriving DecidableEq, Repr

/-- Modelled from the spec: the aggregated diagnostics taxonomy of §7 for the
resolution pass, each entry keyed by the identifiers needed for unambiguous
attribution. -/
inductive Diag where
  | UnresolvedValueError (secretName : SecretName) (fieldName : FieldName)
  | SourceUnavailableError (secretName : SecretName) (fieldName : FieldName)
  | IncompleteFieldSet (secretName : SecretName) (missing : FieldName)
  | InvalidDeclaration (secretName : SecretName)
  | FieldNotSupported (reqIndex : Nat) (providerId : String) (fieldName : FieldName)
  | KindNotSupported (reqIndex : Nat) (providerId : String) (fieldName : FieldName) (kind : TargetKind)
  | UpstreamSecretFailed (reqIndex : Nat) (secretName : SecretName)
  | InjectionConflictError (firstReq secondReq : Nat)
deriving DecidableEq, Repr

/-- A planned, validated injection: the registration index of the request it
came from, its owner unit, and the built fragment. -/
structure PlannedEntry where
  reqIndex : Nat
  ownerUnitId : UnitId
  fragment : Fragment
deriving DecidableEq, Repr

/-- Keep the first element of every key class, dropping later elements whose
key is in the accumulator of already-seen keys. -/
def dedupByKeyAux {α β : Type} (key : α → β) [DecidableEq β] (seen : List β) :
    List α → List α
  | [] => []
  | x :: xs =>
    if seen.contains (key x) then dedupByKeyAux key seen xs
    else x :: dedupByKeyAux key (key x :: seen) xs

/-- Keep the first element of every key class, dropping later elements whose
key already appeared. -/
def dedupByKey {α β : Type} (key : α → β) [DecidableEq β] (l : List α) : List α :=
  dedupByKeyAux key [] l

/-- Step 1 of the algorithm: the distinct `(secretName, fieldName)` pairs
actually referenced by the Injection Request Set, in registration order. -/
def referencedPairs (reqs : List InjectionRequest) : List (SecretName × FieldName) :=
  dedupByKey id (reqs.map (fun q => (q.secretName, q.fieldName)))

/-- The distinct secret names referenced by at least one request. -/
def referencedSecrets (reqs : List InjectionRequest) : List SecretName :=
  dedupByKey id ((referencedPairs reqs).map Prod.fst)

/-- The distinct fields of one secret referenced by the request set. -/
def fieldsOf (reqs : List InjectionRequest) (s : SecretName) : List FieldName :=
  ((referencedPairs reqs).filter (fun p => p.1 == s)).map Prod.snd

/-- Find the declaration of a secret in the registry's declaration list. -/
def findDecl (secrets : List SecretDeclaration) (s : SecretName) : Option SecretDeclaration :=
  secrets.find? (fun d => d.name == s)

/-- Find a registered provider by id. -/
def findProvider (provs : List (String × Provider)) (pid : String) : Option Provider :=
  (provs.find? (fun x => x.1 == pid)).map Prod.snd

/-- Step 2 of the algorithm for one referenced pair: resolve the pair through
the declared secret's connector.  A declaration whose capabilities are not
registered behaves like an unreachable source. -/
def resolveOne (r : Registry) (p : SecretName × FieldName) : FetchOutcome :=
  match findDecl r.secrets p.1 with
  | none => .unavailable
  | some decl =>
    match r.connectors.find? (fun x => x.1 == decl.connectorId) with
    | none => .unavailable
    | some c => c.2.fetch p.1 p.2

/-- The per-field failure diagnostics of one secret's fetch outcomes. -/
def failDiags (s : SecretName) (outs : List (FieldName × FetchOutcome)) : List Diag :=
  outs.filterMap (fun fo =>
    match fo.2 with
    | .value _ => none
    | .absent => some (Diag.UnresolvedValueError s fo.1)
    | .unavailable => some (Diag.SourceUnavailableError s fo.1))

/-- The successfully fetched field values of one secret. -/
def okValues (outs : List (FieldName × FetchOutcome)) : List (FieldName × RawValue) :=
  outs.filterMap (fun fo =>
    match fo.2 with | .value v => some (fo.1, v) | _ => none)

/-- Steps 2-3 for one secret, given the fetch outcomes of its referenced
fields: collect the per-field failures; when there is none, materialize the
secret through its provider. -/
def secretStatusCore (r : Registry) (s : SecretName) (outs : List (FieldName × FetchOutcome)) :
    List Diag × Option Resource :=
  if (failDiags s outs).isEmpty then
    match findDecl r.secrets s with
    | none => ([Diag.InvalidDeclaration s], none)
    | some decl =>
      match findProvider r.providers decl.providerId with
      | none => ([Diag.InvalidDeclaration s], none)
      | some prov =>
        match materialize prov s (okValues outs) with
        | .ok res => ([], some res)
        | .error (.IncompleteFieldSetError sn m) => ([Diag.IncompleteFieldSet sn m], none)
        | .error _ => ([Diag.InvalidDeclaration s], none)
  else (failDiags s outs, none)

/-- The per-secret statuses of the pass, driven by an abstract field-outcome
oracle `g` (instantiated with the resolved-value table of a schedule). -/
def statusesWith (r : Registry) (reqs : List InjectionRequest)
    (g : SecretName × FieldName → FetchOutcome) :
    List (SecretName × (List Diag × Option Resource)) :=
  (referencedSecrets reqs).map (fun s =>
    (s, secretStatusCore r s ((fieldsOf reqs s).map (fun f => (f, g (s, f))))))

/-- The materialized secrets of the pass, keyed by secret name. -/
def matWith (r : Registry) (reqs : List InjectionRequest)
    (g : SecretName × FieldName → FetchOutcome) : List (SecretName × Resource) :=
  (statusesWith r reqs g).filterMap (fun x => x.2.2.map (fun res => (x.1, res)))

/-- The resolution and materialization diagnostics of the pass. -/
def statusDiagsWith (r : Registry) (reqs : List InjectionRequest)
    (g : SecretName × FieldName → FetchOutcome) : List Diag :=
  (statusesWith r reqs g).flatMap (fun x => x.2.1)

/-- Step 4 for one request: a request whose secret failed upstream is marked
`UpstreamSecretFailed`; otherwise the fragment is validated and built by the
secret's provider. -/
def planOne (r : Registry) (matNames : List SecretName) (i : Nat) (q : InjectionRequest) :
    Except Diag PlannedEntry :=
  if matNames.contains q.secretName then
    match findDecl r.secrets q.secretName with
    | none => .error (.UpstreamSecretFailed i q.secretName)
    | some decl =>
      match findProvider r.providers decl.providerId with
      | none => .error (.UpstreamSecretFailed i q.secretName)
      | some prov =>
        match buildInjectionFragment prov decl.providerId q.secretName q.fieldName
            q.targetKind q.targetOptions with
        | .ok frag => .ok { reqIndex := i, ownerUnitId := q.ownerUnitId, fragment := frag }
        | .error (.FieldNotSupportedError pid f) => .error (.FieldNotSupported i pid f)
        | .error (.KindNotSupportedError pid f k) => .error (.KindNotSupported i pid f k)
        | .error (.IncompleteFieldSetError _ _) => .error (.UpstreamSecretFailed i q.secretName)
  else .error (.UpstreamSecretFailed i q.secretName)

/-- Step 4 over the whole request set, in registration order. -/
def planResults (r : Registry) (matNames : List SecretName) (reqs : List InjectionRequest) :
    List (Except Diag PlannedEntry) :=
  reqs.enum.map (fun iq => planOne r matNames iq.1 iq.2)

/-- The request-level diagnostics of step 4. -/
def planDiags (results : List (Except Diag PlannedEntry)) : List Diag :=
  results.filterMap (fun x => match x with | .error d => some d | .ok _ => none)

/-- The successfully planned entries of step 4. -/
def planEntries (results : List (Except Diag PlannedEntry)) : List PlannedEntry :=
  results.filterMap (fun x => match x with | .ok e => some e | .error _ => none)

/-- All ordered pairs of distinct positions of a list. -/
def listPairs {α : Type} : List α → List (α × α)
  | [] => []
  | x :: xs => xs.map (fun y => (x, y)) ++ listPairs xs

/-- The conflict-detection group of a planned entry:
`(ownerUnitId, targetKind, target-identifying-option)`. -/
def groupKey (e : PlannedEntry) : UnitId × TargetKind × TargetOptions :=
  (e.ownerUnitId, e.fragment.kind, e.fragment.options)

/-- Step 5: every pair of fragments in the same group with differing content
raises an `InjectionConflictError` naming both requests. -/
def conflictDiags (entries : List PlannedEntry) : List Diag :=
  (listPairs entries).filterMap (fun ab =>
    if groupKey ab.1 = groupKey ab.2 ∧ ab.1.fragment ≠ ab.2.fragment then
      some (.InjectionConflictError ab.1.reqIndex ab.2.reqIndex)
    else none)

/-- The de-duplication key of step 5: identical fragments of one unit are a
harmless duplicate, of which one is kept. -/
def injKey (e : PlannedEntry) : UnitId × Fragment :=
  (e.ownerUnitId, e.fragment)

/-- Emission order of planned entries: by secret name (the resource the
fragment references) first, then by request registration order. -/
def entryLE (a b : PlannedEntry) : Prop :=
  a.fragment.resourceRef < b.fragment.resourceRef ∨
    (a.fragment.resourceRef = b.fragment.resourceRef ∧ a.reqIndex ≤ b.reqIndex)

instance : DecidableRel entryLE := fun a b => by
  unfold entryLE; infer_instance

instance : IsTotal PlannedEntry entryLE where
  total a b := by
    rcases lt_trichotomy a.fragment.resourceRef b.fragment.resourceRef with h | h | h
    · exact Or.inl (Or.inl h)
    · rcases Nat.le_total a.reqIndex b.reqIndex with h2 | h2
      · exact Or.inl (Or.inr ⟨h, h2⟩)
      · exact Or.inr (Or.inr ⟨h.symm, h2⟩)
    · exact Or.inr (Or.inl h)

instance : IsTrans PlannedEntry entryLE where
  trans a b c hab hbc := by
    rcases hab with h1 | ⟨e1, i1⟩
    · rcases hbc with h2 | ⟨e2, i2⟩
      · exact Or.inl (h1.trans h2)
      · exact Or.inl (by rw [← e2]; exact h1)
    · rcases hbc with h2 | ⟨e2, i2⟩
      · exact Or.inl (by rw [e1]; exact h2)
      · exact Or.inr ⟨e1.trans e2, i1.trans i2⟩

/-- Emission order of materialized resources: by secret name. -/
def resLE (a b : Resource) : Prop := a.name ≤ b.name

instance : DecidableRel resLE := fun a b => by
  unfold resLE; infer_instance

instance : IsTotal Resource resLE where
  total a b := le_total a.name b.name

instance : IsTrans Resource resLE where
  trans _ _ _ hab hbc := le_trans hab hbc

/-- Modelled from the spec: the emitted artifact of one resolution pass —
ordered materialized resources, per-unit ordered plans, the aggregated
diagnostics, and the trace of connector calls performed. -/
structure EngineOutput where
  resources : List Resource
  plans : List (UnitId × List PlannedEntry)
  diags : List Diag
  calls : List (SecretName × FieldName)
deriving DecidableEq, Repr

/-- The full pass (steps 1-6), driven by a field-outcome oracle. -/
def engine (r : Registry) (reqs : List InjectionRequest)
    (g : SecretName × FieldName → FetchOutcome)
    (calls : List (SecretName × FieldName)) : EngineOutput :=
  let mat := matWith r reqs g
  let results := planResults r (mat.map Prod.fst) reqs
  let entries := planEntries results
  let kept := dedupByKey injKey entries
  { resources := List.insertionSort resLE (mat.map Prod.snd)
    plans := (dedupByKey id (kept.map PlannedEntry.ownerUnitId)).map (fun u =>
      (u, List.insertionSort entryLE (kept.filter (fun e => e.ownerUnitId == u))))
    diags := statusDiagsWith r reqs g ++ planDiags results ++ conflictDiags entries
    calls := calls }

/-- Assoc-list lookup of a resolved pair. -/
def lookupPair {β : Type} (p : SecretName × FieldName) :
    List ((SecretName × FieldName) × β) → Option β
  | [] => none
  | (q, v) :: t => if p = q then some v else lookupPair p t

/-- The resolved-value table built by fetching the scheduled pairs in
schedule (completion) order; consulted by the pass through lookups only. -/
def outcomeOf (r : Registry) (sched : List (SecretName × FieldName))
    (p : SecretName × FieldName) : FetchOutcome :=
  (lookupPair p (sched.map (fun q => (q, resolveOne r q)))).getD .unavailable

/-- One resolution pass whose connector calls complete in the order given by
`sched` (a permutation of the referenced pairs when run concurrently). -/
def runWithSchedule (r : Registry) (reqs : List InjectionRequest)
    (sched : List (SecretName × FieldName)) : EngineOutput :=
  engine r reqs (outcomeOf r sched) sched

/-- The canonical sequential pass: schedule = referenced pairs in
registration order. -/
def run (r : Registry) (reqs : List InjectionRequest) : EngineOutput :=
  runWithSchedule r reqs (referencedPairs reqs)

/-- The canonical status of one secret: its diagnostics and, when it
materialized, its resource, computed from its own connector outcomes only. -/
def secretStatus (r : Registry) (reqs : List InjectionRequest) (s : SecretName) :
    List Diag × Option Resource :=
  secretStatusCore r s ((fieldsOf reqs s).map (fun f => (f, resolveOne r (s, f))))

/-- The materialized secrets of the canonical pass. -/
def runMat (r : Registry) (reqs : List InjectionRequest) : List (SecretName × Resource) :=
  matWith r reqs (outcomeOf r (referencedPairs reqs))

/-- The planned entries of the canonical pass. -/
def runEntries (r : Registry) (reqs : List InjectionRequest) : List PlannedEntry :=
  planEntries (planResults r ((runMat r reqs).map Prod.fst) reqs)

/-! ### Helper lemmas about de-duplication, lookups and referenced pairs -/

theorem dedupByKeyAux_sublist {α β : Type} (key : α → β) [DecidableEq β] :
    ∀ (l : List α) (seen : List β), List.Sublist (dedupByKeyAux key seen l) l := by
  intro l
  induction l with
  | nil => intro seen; simp [dedupByKeyAux]
  | cons x xs ih =>
    intro seen
    rw [dedupByKeyAux]
    by_cases h : seen.contains (key x)
    · rw [if_pos h]
      exact (ih seen).cons x
    · rw [if_neg h]
      exact (ih (key x :: seen)).cons₂ x

theorem mem_of_mem_dedupByKey {α β : Type} {key : α → β} [DecidableEq β] {l : List α}
    {a : α} (h : a ∈ dedupByKey key l) : a ∈ l :=
  (dedupByKeyAux_sublist key l []).subset h

theorem exists_mem_dedupByKeyAux {α β : Type} (key : α → β) [DecidableEq β] :
    ∀ (l : List α) (seen : List β), ∀ a ∈ l, key a ∉ seen →
      ∃ b ∈ dedupByKeyAux key seen l, key b = key a := by
  intro l
  induction l with
  | nil => intro seen a h; cases h
  | cons x xs ih =>
    intro seen a h hseen
    rw [dedupByKeyAux]
    by_cases hx : seen.contains (key x)
    · rw [if_pos hx]
      rcases List.mem_cons.mp h with rfl | ha
      · exact absurd (by simpa using hx) hseen
      · exact ih seen a ha hseen
    · rw [if_neg hx]
      by_cases hk : key a = key x
      · exact ⟨x, List.mem_cons_self x _, hk.symm⟩
      · rcases List.mem_cons.mp h with rfl | ha
        · exact absurd rfl hk
        · obtain ⟨b, hb, hkb⟩ := ih (key x :: seen) a ha (by
            intro hmem
            rcases List.mem_cons.mp hmem with h1 | h1
            · exact hk h1
            · exact hseen h1)
          exact ⟨b, List.mem_cons_of_mem _ hb, hkb⟩

theorem keys_dedupByKeyAux_not_seen {α β : Type} (key : α → β) [DecidableEq β] :
    ∀ (l : List α) (seen : List β), ∀ b ∈ dedupByKeyAux key seen l, key b ∉ seen := by
  intro l
  induction l with
  | nil => intro seen b h; cases h
  | cons x xs ih =>
    intro seen b h
    rw [dedupByKeyAux] at h
    by_cases hx : seen.contains (key x)
    · rw [if_pos hx] at h
      exact ih seen b h
    · rw [if_neg hx] at h
      rcases List.mem_cons.mp h with rfl | hb
      · simpa using hx
      · intro hseen
        exact ih (key x :: seen) b hb (List.mem_cons_of_mem _ hseen)

theorem pairwise_dedupByKeyAux {α β : Type} (key : α → β) [DecidableEq β] :
    ∀ (l : List α) (seen : List β),
      (dedupByKeyAux key seen l).Pairwise (fun a b => key a ≠ key b) := by
  intro l
  induction l with
  | nil => intro seen; simp [dedupByKeyAux]
  | cons x xs ih =>
    intro seen
    rw [dedupByKeyAux]
    by_cases hx : seen.contains (key x)
    · rw [if_pos hx]
      exact ih seen
    · rw [if_neg hx]
      refine List.pairwise_cons.mpr ⟨?_, ih (key x :: seen)⟩
      intro b hb
      have := keys_dedupByKeyAux_not_seen key xs (key x :: seen) b hb
      intro hxb
      exact this (hxb ▸ List.mem_cons_self _ _)

theorem pairwise_dedupByKey {α β : Type} (key : α → β) [DecidableEq β] (l : List α) :
    (dedupByKey key l).Pairwise (fun a b => key a ≠ key b) :=
  pairwise_dedupByKeyAux key l []

theorem exists_mem_dedupByKey {α β : Type} (key : α → β) [DecidableEq β]
    (l : List α) : ∀ a ∈ l, ∃ b ∈ dedupByKey key l, key b = key a := by
  intro a ha
  exact exists_mem_dedupByKeyAux key l [] a ha (by simp)

theorem mem_dedupByKey_id {α : Type} [DecidableEq α] (l : List α) (a : α) :
    a ∈ dedupByKey id l ↔ a ∈ l := by
  constructor
  · exact mem_of_mem_dedupByKey
  · intro h
    obtain ⟨b, hb, hkb⟩ := exists_mem_dedupByKey id l a h
    simpa [show b = a from hkb] using hb

theorem nodup_dedupByKey_id {α : Type} [DecidableEq α] (l : List α) :
    (dedupByKey id l).Nodup := by
  simpa [List.Nodup] using pairwise_dedupByKey id l

theorem lookupPair_map_self {β : Type} (f : SecretName × FieldName → β) :
    ∀ (sched : List (SecretName × FieldName)) (p : SecretName × FieldName), p ∈ sched →
      lookupPair p (sched.map (fun q => (q, f q))) = some (f p) := by
  intro sched
  induction sched with
  | nil => intro p h; cases h
  | cons q t ih =>
    intro p h
    simp only [List.map_cons, lookupPair]
    by_cases hpq : p = q
    · simp [hpq]
    · rw [if_neg hpq]
      exact ih p ((List.mem_cons.mp h).resolve_left hpq)

theorem outcomeOf_eq_resolveOne (r : Registry) (sched : List (SecretName × FieldName))
    (p : SecretName × FieldName) (hp : p ∈ sched) :
    outcomeOf r sched p = resolveOne r p := by
  unfold outcomeOf
  rw [lookupPair_map_self (resolveOne r) sched p hp]
  rfl

theorem mem_referencedPairs (reqs : List InjectionRequest) (p : SecretName × FieldName) :
    p ∈ referencedPairs reqs ↔ ∃ q ∈ reqs, (q.secretName, q.fieldName) = p := by
  unfold referencedPairs
  rw [mem_dedupByKey_id]
  simp [List.mem_map]

theorem nodup_referencedPairs (reqs : List InjectionRequest) :
    (referencedPairs reqs).Nodup :=
  nodup_dedupByKey_id _

theorem mem_fieldsOf (reqs : List InjectionRequest) (s : SecretName) (f : FieldName) :
    f ∈ fieldsOf reqs s ↔ (s, f) ∈ referencedPairs reqs := by
  unfold fieldsOf
  simp only [List.mem_map, List.mem_filter, beq_iff_eq]
  constructor
  · rintro ⟨⟨a, b⟩, ⟨hmem, ha⟩, rfl⟩
    exact ha ▸ hmem
  · intro h
    exact ⟨(s, f), ⟨h, rfl⟩, rfl⟩

theorem nodup_fieldsOf (reqs : List InjectionRequest) (s : SecretName) :
    (fieldsOf reqs s).Nodup := by
  unfold fieldsOf
  refine List.Nodup.map_on ?_ ((nodup_referencedPairs reqs).filter _)
  intro x hx y hy hxy
  have hx1 : x.1 = s := by simpa using (List.mem_filter.mp hx).2
  have hy1 : y.1 = s := by simpa using (List.mem_filter.mp hy).2
  exact Prod.ext (hx1.trans hy1.symm) hxy

theorem mem_referencedSecrets (reqs : List InjectionRequest) (s : SecretName) :
    s ∈ referencedSecrets reqs ↔ s ∈ (referencedPairs reqs).map Prod.fst := by
  unfold referencedSecrets
  rw [mem_dedupByKey_id]

theorem nodup_referencedSecrets (reqs : List InjectionRequest) :
    (referencedSecrets reqs).Nodup :=
  nodup_dedupByKey_id _

theorem listPairs_mem {α : Type} (l : List α) (a b : α) (ha : a ∈ l) (hb : b ∈ l)
    (hne : a ≠ b) : (a, b) ∈ listPairs l ∨ (b, a) ∈ listPairs l := by
  induction l with
  | nil => cases ha
  | cons x xs ih =>
    simp only [listPairs, List.mem_append, List.mem_map]
    rcases List.mem_cons.mp ha with rfl | ha'
    · left; left
      exact ⟨b, (List.mem_cons.mp hb).resolve_left (fun h => hne h.symm), rfl⟩
    · rcases List.mem_cons.mp hb with rfl | hb'
      · right; left
        exact ⟨a, ha', rfl⟩
      · rcases ih ha' hb' with h | h
        · exact Or.inl (Or.inr h)
        · exact Or.inr (Or.inr h)

/-! ### Schedule invariance of the emitted artifact -/

theorem statusesWith_congr (r : Registry) (reqs : List InjectionRequest)
    (g1 g2 : SecretName × FieldName → FetchOutcome)
    (h : ∀ p ∈ referencedPairs reqs, g1 p = g2 p) :
    statusesWith r reqs g1 = statusesWith r reqs g2 := by
  unfold statusesWith
  apply List.map_congr_left
  intro s _
  have houts : (fieldsOf reqs s).map (fun f => (f, g1 (s, f))) =
      (fieldsOf reqs s).map (fun f => (f, g2 (s, f))) := by
    apply List.map_congr_left
    intro f hf
    exact congrArg (fun o => (f, o)) (h (s, f) ((mem_fieldsOf reqs s f).mp hf))
  rw [houts]

theorem engine_emit_congr (r : Registry) (reqs : List InjectionRequest)
    (g1 g2 : SecretName × FieldName → FetchOutcome)
    (c1 c2 : List (SecretName × FieldName))
    (h : ∀ p ∈ referencedPairs reqs, g1 p = g2 p) :
    (engine r reqs g1 c1).resources = (engine r reqs g2 c2).resources ∧
    (engine r reqs g1 c1).plans = (engine r reqs g2 c2).plans ∧
    (engine r reqs g1 c1).diags = (engine r reqs g2 c2).diags := by
  have hs := statusesWith_congr r reqs g1 g2 h
  unfold engine matWith statusDiagsWith
  rw [hs]
  exact ⟨rfl, rfl, rfl⟩

theorem engine_plans_sorted (r : Registry) (reqs : List InjectionRequest)
    (g : SecretName × FieldName → FetchOutcome) (c : List (SecretName × FieldName)) :
    ∀ up ∈ (engine r reqs g c).plans, List.Sorted entryLE up.2 := by
  intro up hup
  unfold engine at hup
  simp only [List.mem_map] at hup
  obtain ⟨u, _, rfl⟩ := hup
  exact List.sorted_insertionSort entryLE _

theorem engine_resources_sorted (r : Registry) (reqs : List InjectionRequest)
    (g : SecretName × FieldName → FetchOutcome) (c : List (SecretName × FieldName)) :
    List.Sorted resLE (engine r reqs g c).resources :=
  List.sorted_insertionSort resLE _

/-! ### Sample data: the basic-auth scenario of §8 -/

/-- A basic-auth provider: fields `username` and `password`, both injectable
as `env` or `volume`. -/
def sampleBasicAuth : Provider :=
  { fieldSchema := [⟨"username", ["env", "volume"]⟩, ⟨"password", ["env", "volume"]⟩]
    requireAll := false }

/-- An environment connector holding both basic-auth fields of
`API_CREDENTIALS`. -/
def sampleEnv : Connector :=
  { fetch := fun s f =>
      if s = "API_CREDENTIALS" ∧ f = "username" then .value "admin"
      else if s = "API_CREDENTIALS" ∧ f = "password" then .value "hunter2"
      else .absent }

/-- The registry of the `setup-secrets.ts` example: one connector, one
provider, one declared secret. -/
def sampleReg : Registry :=
  { connectors := [("EnvConnector", sampleEnv)]
    providers := [("ApiCredentialsProvider", sampleBasicAuth)]
    secrets := [⟨"API_CREDENTIALS", "ApiCredentialsProvider", "EnvConnector"⟩] }

/-- The two injection requests of the example stack. -/
def sampleReqs : List InjectionRequest :=
  [⟨"API_CREDENTIALS", "username", "my-app", "env", "API_USERNAME"⟩,
   ⟨"API_CREDENTIALS", "password", "my-app", "env", "API_PASSWORD"⟩]

/-- The canonical run on the sample data. -/
def sampleRunA : EngineOutput :=
  runWithSchedule sampleReg sampleReqs (referencedPairs sampleReqs)

/-- The same run with the reversed connector-completion order. -/
def sampleRunB : EngineOutput :=
  runWithSchedule sampleReg sampleReqs (referencedPairs sampleReqs).reverse

/-! ### Claim theorems -/

/-- Claim C1: for every registry and injection request set, two resolution
runs whose connector calls complete in any two orders (any permutations of
the referenced pairs) emit identical resources, plans and diagnostics; and
the emitted artifact is ordered by secret name first and then by request
registration order (each plan is sorted by `entryLE`, the resources by
`resLE`), independent of the completion order. -/
theorem run_deterministic_and_ordered (r : Registry) (reqs : List InjectionRequest)
    (sched1 sched2 : List (SecretName × FieldName))
    (h1 : sched1.Perm (referencedPairs reqs)) (h2 : sched2.Perm (referencedPairs reqs)) :
    ((runWithSchedule r reqs sched1).resources = (runWithSchedule r reqs sched2).resources ∧
      (runWithSchedule r reqs sched1).plans = (runWithSchedule r reqs sched2).plans ∧
      (runWithSchedule r reqs sched1).diags = (runWithSchedule r reqs sched2).diags) ∧
    (∀ up ∈ (runWithSchedule r reqs sched1).plans, List.Sorted entryLE up.2) ∧
    List.Sorted resLE (runWithSchedule r reqs sched1).resources := by
  refine ⟨?_, ?_, ?_⟩
  · apply engine_emit_congr
    intro p hp
    rw [outcomeOf_eq_resolveOne r sched1 p (h1.mem_iff.mpr hp),
        outcomeOf_eq_resolveOne r sched2 p (h2.mem_iff.mpr hp)]
  · exact engine_plans_sorted r reqs (outcomeOf r sched1) sched1
  · exact engine_resources_sorted r reqs (outcomeOf r sched1) sched1

/-- Witness for C1: the basic-auth scenario run with the registration-order
schedule and with the reversed completion order. -/
theorem run_deterministic_and_ordered_witness :
    ((referencedPairs sampleReqs).Perm (referencedPairs sampleReqs) ∧
      ((referencedPairs sampleReqs).reverse).Perm (referencedPairs sampleReqs)) ∧
    ((sampleRunA.resources = sampleRunB.resources ∧
        sampleRunA.plans = sampleRunB.plans ∧
        sampleRunA.diags = sampleRunB.diags) ∧
      (∀ up ∈ sampleRunA.plans, List.Sorted entryLE up.2) ∧
      List.Sorted resLE sampleRunA.resources) :=
  ⟨⟨by decide, by decide⟩,
    run_deterministic_and_ordered sampleReg sampleReqs
      (referencedPairs sampleReqs) (referencedPairs sampleReqs).reverse
      (by decide) (by decide)⟩

/-- Claim C5: for every declared secret with no referenced
`(secretName, fieldName)` pair, the resolution pass never calls its
connector: the trace of connector calls contains no pair of that secret,
every traced pair is referenced by some request, and each distinct pair is
fetched exactly once. -/
theorem run_calls_lazy (r : Registry) (reqs : List InjectionRequest) (s : SecretName)
    (h : ∀ q ∈ reqs, q.secretName ≠ s) :
    s ∉ ((run r reqs).calls.map Prod.fst) ∧
    (∀ p ∈ (run r reqs).calls, ∃ q ∈ reqs, (q.secretName, q.fieldName) = p) ∧
    (run r reqs).calls.Nodup := by
  have hcalls : (run r reqs).calls = referencedPairs reqs := rfl
  rw [hcalls]
  refine ⟨?_, ?_, nodup_referencedPairs reqs⟩
  · intro hs
    obtain ⟨p, hp, hp1⟩ := List.mem_map.mp hs
    obtain ⟨q, hq, hqp⟩ := (mem_referencedPairs reqs p).mp hp
    exact h q hq (by rw [← hp1, ← hqp])
  · intro p hp
    exact (mem_referencedPairs reqs p).mp hp

/-- Witness for C5: the sample run never fetches the unreferenced secret
`UNUSED`. -/
theorem run_calls_lazy_witness :
    (∀ q ∈ sampleReqs, q.secretName ≠ "UNUSED") ∧
    ("UNUSED" ∉ ((run sampleReg sampleReqs).calls.map Prod.fst) ∧
      (∀ p ∈ (run sampleReg sampleReqs).calls,
        ∃ q ∈ sampleReqs, (q.secretName, q.fieldName) = p) ∧
      (run sampleReg sampleReqs).calls.Nodup) :=
  ⟨by decide, run_calls_lazy sampleReg sampleReqs "UNUSED" (by decide)⟩

/-- Claim C6: `addConnector`, `addProvider` and `addSecret` fail with
`DuplicateIdentifierError` exactly when the id or name is already taken in
its own namespace (the three namespaces are independent: each condition
consults only its own), and `addSecret` fails with `UnknownProviderError` /
`UnknownConnectorError` when the referenced capability id is not yet
registered. -/
theorem registry_add_error_conditions (r : Registry) (id : String) (c : Connector)
    (p : Provider) (d : SecretInput) (cid : String) :
    (addConnector r id c = .error (.DuplicateIdentifierError "connector" id) ↔
        id ∈ r.connectors.map Prod.fst) ∧
    (addProvider r id p = .error (.DuplicateIdentifierError "provider" id) ↔
        id ∈ r.providers.map Prod.fst) ∧
    (addSecret r d = .error (.DuplicateIdentifierError "secret" d.name) ↔
        d.name ∈ r.secrets.map SecretDeclaration.name) ∧
    (d.name ∉ r.secrets.map SecretDeclaration.name →
      d.provider ∉ r.providers.map Prod.fst →
      addSecret r d = .error (.UnknownProviderError d.provider)) ∧
    (d.name ∉ r.secrets.map SecretDeclaration.name →
      d.provider ∈ r.providers.map Prod.fst →
      d.connector = some cid →
      cid ∉ r.connectors.map Prod.fst →
      addSecret r d = .error (.UnknownConnectorError cid)) := by
  refine ⟨?_, ?_, ?_, ?_, ?_⟩
  · unfold addConnector
    by_cases h : id ∈ r.connectors.map Prod.fst <;> simp [h]
  · unfold addProvider
    by_cases h : id ∈ r.providers.map Prod.fst <;> simp [h]
  · unfold addSecret
    by_cases h : d.name ∈ r.secrets.map SecretDeclaration.name
    · simp [h]
    · simp only [h, iff_false]
      by_cases hp : d.provider ∈ r.providers.map Prod.fst
      · cases hd : d.connector with
        | some cid2 =>
          by_cases hc : cid2 ∈ r.connectors.map Prod.fst <;> simp [h, hp, hd, hc]
        | none =>
          cases hcs : r.connectors <;> simp [h, hp, hd, hcs]
      · simp [h, hp]
  · intro h hp
    unfold addSecret
    simp [h, hp]
  · intro h hp hd hc
    unfold addSecret
    simp [h, hp, hd, hc]

/-- Witness for C6: adding a secret whose provider id is unknown to the
sample registry fails with `UnknownProviderError`. -/
theorem registry_add_error_conditions_witness :
    (("NEW_SECRET" : String) ∉ sampleReg.secrets.map SecretDeclaration.name ∧
      ("NoSuchProvider" : String) ∉ sampleReg.providers.map Prod.fst) ∧
    addSecret sampleReg ⟨"NEW_SECRET", "NoSuchProvider", none⟩ =
      .error (.UnknownProviderError "NoSuchProvider") :=
  ⟨⟨by decide, by decide⟩,
    (registry_add_error_conditions sampleReg "x" sampleEnv sampleBasicAuth
        ⟨"NEW_SECRET", "NoSuchProvider", none⟩ "y").2.2.2.1 (by decide) (by decide)⟩

/-- Claim C7: `buildInjectionFragment` fails with `FieldNotSupportedError`
exactly when the requested field is not in the provider's schema, fails with
`KindNotSupportedError` exactly when the field is found but the kind is not
among its allowed kinds, and otherwise builds the reference fragment; in
particular the basic-auth provider (schema `username`, `password`) asked for
field `certificate` yields `FieldNotSupportedError` naming that field and
provider. -/
theorem buildInjectionFragment_error_conditions (p : Provider) (pid : String)
    (s : SecretName) (f : FieldName) (k : TargetKind) (o : TargetOptions) :
    ((buildInjectionFragment p pid s f k o = .error (.FieldNotSupportedError pid f)) ↔
        f ∉ p.fieldSchema.map FieldSpec.fieldName) ∧
    (∀ fs, p.fieldSchema.find? (fun x => x.fieldName == f) = some fs →
      ((buildInjectionFragment p pid s f k o = .error (.KindNotSupportedError pid f k)) ↔
          k ∉ fs.allowedKinds) ∧
      (k ∈ fs.allowedKinds →
        buildInjectionFragment p pid s f k o = .ok ⟨s, f, k, o⟩)) ∧
    buildInjectionFragment sampleBasicAuth "ApiCredentialsProvider" "API_CREDENTIALS"
        "certificate" "env" "CERT" =
      .error (.FieldNotSupportedError "ApiCredentialsProvider" "certificate") := by
  refine ⟨?_, ?_, rfl⟩
  · unfold buildInjectionFragment
    cases hfind : p.fieldSchema.find? (fun x => x.fieldName == f) with
    | none =>
      have := List.find?_eq_none.mp hfind
      simp only [true_iff]
      intro hmem
      obtain ⟨fs, hfs, hname⟩ := List.mem_map.mp hmem
      exact absurd (by simpa using hname) (by simpa using this fs hfs)
    | some fs =>
      have hfs := List.find?_some hfind
      have hmem : f ∈ p.fieldSchema.map FieldSpec.fieldName :=
        List.mem_map.mpr ⟨fs, List.mem_of_find?_eq_some hfind, by simpa using hfs⟩
      by_cases hk : k ∈ fs.allowedKinds <;> simp [hk, hmem]
  · intro fs hfind
    unfold buildInjectionFragment
    rw [hfind]
    constructor
    · by_cases hk : k ∈ fs.allowedKinds <;> simp [hk]
    · intro hk
      simp [hk]

/-- Witness for C7: the `certificate` field is absent from the basic-auth
schema, so the fragment build fails naming field and provider. -/
theorem buildInjectionFragment_error_conditions_witness :
    (("certificate" : String) ∉ sampleBasicAuth.fieldSchema.map FieldSpec.fieldName) ∧
    buildInjectionFragment sampleBasicAuth "ApiCredentialsProvider" "API_CREDENTIALS"
        "certificate" "env" "CERT" =
      .error (.FieldNotSupportedError "ApiCredentialsProvider" "certificate") :=
  ⟨by decide,
    (buildInjectionFragment_error_conditions sampleBasicAuth "ApiCredentialsProvider"
        "API_CREDENTIALS" "certificate" "env" "CERT").1.mpr (by decide)⟩

/-- The request set of the reuse scenario: the same injection requested
twice by `unit-a` and once more, identically, by `unit-b`. -/
def reuseReqs : List InjectionRequest :=
  [⟨"API_CREDENTIALS", "username", "unit-a", "env", "API_USERNAME"⟩,
   ⟨"API_CREDENTIALS", "username", "unit-a", "env", "API_USERNAME"⟩,
   ⟨"API_CREDENTIALS", "username", "unit-b", "env", "API_USERNAME"⟩]

/-- The single fragment shared by both units in the reuse scenario. -/
def reuseFragment : Fragment :=
  ⟨"API_CREDENTIALS", "username", "env", "API_USERNAME"⟩

/-- Claim C3: de-duplication is idempotent — in every emitted per-unit plan
the fragments are pairwise distinct, so any multiset of identical requests
from one unit plans exactly one fragment; and when two different units make
the identical request, resolution succeeds without conflict and the single
fragment is reused in both units' plans (concrete reuse scenario). -/
theorem plan_fragments_nodup_and_reuse (r : Registry) (reqs : List InjectionRequest) :
    (∀ up ∈ (run r reqs).plans, ((up.2).map PlannedEntry.fragment).Nodup) ∧
    (run sampleReg reuseReqs).plans =
      [("unit-a", [⟨0, "unit-a", reuseFragment⟩]),
       ("unit-b", [⟨2, "unit-b", reuseFragment⟩])] ∧
    (run sampleReg reuseReqs).diags = [] := by
  refine ⟨?_, rfl, rfl⟩
  intro up hup
  have hplans : (run r reqs).plans =
      (dedupByKey id ((dedupByKey injKey (runEntries r reqs)).map PlannedEntry.ownerUnitId)).map
        (fun u => (u, List.insertionSort entryLE
          ((dedupByKey injKey (runEntries r reqs)).filter (fun e => e.ownerUnitId == u)))) := rfl
  rw [hplans] at hup
  obtain ⟨u, _, rfl⟩ := List.mem_map.mp hup
  have hkept : (dedupByKey injKey (runEntries r reqs)).Pairwise
      (fun a b => injKey a ≠ injKey b) := pairwise_dedupByKey injKey _
  have hfilter : ((dedupByKey injKey (runEntries r reqs)).filter
      (fun e => e.ownerUnitId == u)).Pairwise (fun a b => injKey a ≠ injKey b) :=
    List.Pairwise.sublist (List.filter_sublist _) hkept
  have hperm := List.perm_insertionSort entryLE
    ((dedupByKey injKey (runEntries r reqs)).filter (fun e => e.ownerUnitId == u))
  have hsorted : (List.insertionSort entryLE
      ((dedupByKey injKey (runEntries r reqs)).filter (fun e => e.ownerUnitId == u))).Pairwise
      (fun a b => injKey a ≠ injKey b) :=
    (List.Perm.pairwise_iff (fun hxy => Ne.symm hxy) hperm).mpr hfilter
  have howner : ∀ e ∈ List.insertionSort entryLE
      ((dedupByKey injKey (runEntries r reqs)).filter (fun e => e.ownerUnitId == u)),
      e.ownerUnitId = u := by
    intro e he
    have := hperm.mem_iff.mp he
    simpa using (List.mem_filter.mp this).2
  dsimp only
  refine List.pairwise_map.mpr (List.Pairwise.imp_of_mem ?_ hsorted)
  intro a b ha hb hne heq
  exact hne (by
    unfold injKey
    rw [howner a ha, howner b hb, heq])

/-- Witness for C3: the fragments of `unit-a` in the reuse scenario are
pairwise distinct. -/
theorem plan_fragments_nodup_and_reuse_witness :
    (("unit-a", [(⟨0, "unit-a", reuseFragment⟩ : PlannedEntry)]) ∈
        (run sampleReg reuseReqs).plans) ∧
    (([(⟨0, "unit-a", reuseFragment⟩ : PlannedEntry)].map PlannedEntry.fragment).Nodup) :=
  ⟨by decide,
    (plan_fragments_nodup_and_reuse sampleReg reuseReqs).1
      ("unit-a", [⟨0, "unit-a", reuseFragment⟩]) (by decide)⟩

/-- The request set of the conflict scenario: the same unit targets the
environment variable `API_USERNAME` with two different fields. -/
def conflictReqs : List InjectionRequest :=
  [⟨"API_CREDENTIALS", "username", "my-app", "env", "API_USERNAME"⟩,
   ⟨"API_CREDENTIALS", "password", "my-app", "env", "API_USERNAME"⟩]

/-- The diagnostics of the canonical run split into the three collection
phases. -/
theorem run_diags_split (r : Registry) (reqs : List InjectionRequest) :
    (run r reqs).diags =
      statusDiagsWith r reqs (outcomeOf r (referencedPairs reqs)) ++
      planDiags (planResults r ((runMat r reqs).map Prod.fst) reqs) ++
      conflictDiags (runEntries r reqs) := rfl

/-- Claim C2: whenever two planned injections of the same group (same owner
unit, target kind and target-identifying option) have differing content,
resolution fails and the diagnostics contain an `InjectionConflictError`
naming the two requests. -/
theorem conflict_detection_names_both (r : Registry) (reqs : List InjectionRequest)
    (e1 e2 : PlannedEntry) (h1 : e1 ∈ runEntries r reqs) (h2 : e2 ∈ runEntries r reqs)
    (hk : groupKey e1 = groupKey e2) (hf : e1.fragment ≠ e2.fragment) :
    (run r reqs).diags ≠ [] ∧
    (Diag.InjectionConflictError e1.reqIndex e2.reqIndex ∈ (run r reqs).diags ∨
      Diag.InjectionConflictError e2.reqIndex e1.reqIndex ∈ (run r reqs).diags) := by
  have hne : e1 ≠ e2 := fun h => hf (congrArg PlannedEntry.fragment h)
  have hdiag : Diag.InjectionConflictError e1.reqIndex e2.reqIndex ∈
        conflictDiags (runEntries r reqs) ∨
      Diag.InjectionConflictError e2.reqIndex e1.reqIndex ∈
        conflictDiags (runEntries r reqs) := by
    rcases listPairs_mem (runEntries r reqs) e1 e2 h1 h2 hne with hp | hp
    · left
      exact List.mem_filterMap.mpr ⟨(e1, e2), hp, by simp [hk, hf]⟩
    · right
      exact List.mem_filterMap.mpr ⟨(e2, e1), hp, by simp [hk.symm, Ne.symm hf]⟩
  have hmem : Diag.InjectionConflictError e1.reqIndex e2.reqIndex ∈ (run r reqs).diags ∨
      Diag.InjectionConflictError e2.reqIndex e1.reqIndex ∈ (run r reqs).diags := by
    rw [run_diags_split]
    rcases hdiag with h | h
    · exact Or.inl (List.mem_append_right _ h)
    · exact Or.inr (List.mem_append_right _ h)
  refine ⟨?_, hmem⟩
  rcases hmem with h | h
  · exact List.ne_nil_of_mem h
  · exact List.ne_nil_of_mem h

/-- Witness for C2: the conflict scenario — one unit, one env var name, two
different fields — is reported naming request 0 and request 1. -/
theorem conflict_detection_names_both_witness :
    ((⟨0, "my-app", ⟨"API_CREDENTIALS", "username", "env", "API_USERNAME"⟩⟩ : PlannedEntry) ∈
        runEntries sampleReg conflictReqs ∧
      (⟨1, "my-app", ⟨"API_CREDENTIALS", "password", "env", "API_USERNAME"⟩⟩ : PlannedEntry) ∈
        runEntries sampleReg conflictReqs) ∧
    ((run sampleReg conflictReqs).diags ≠ [] ∧
      (Diag.InjectionConflictError 0 1 ∈ (run sampleReg conflictReqs).diags ∨
        Diag.InjectionConflictError 1 0 ∈ (run sampleReg conflictReqs).diags)) :=
  ⟨⟨by decide, by decide⟩,
    conflict_detection_names_both sampleReg conflictReqs
      ⟨0, "my-app", ⟨"API_CREDENTIALS", "username", "env", "API_USERNAME"⟩⟩
      ⟨1, "my-app", ⟨"API_CREDENTIALS", "password", "env", "API_USERNAME"⟩⟩
      (by decide) (by decide) (by decide) (by decide)⟩

/-- The shape of a fetch outcome: its constructor, with the raw value
forgotten. -/
def FetchOutcome.shape : FetchOutcome → FetchOutcome
  | .value _ => .value ""
  | .absent => .absent
  | .unavailable => .unavailable

theorem failDiags_shape_congr (s : SecretName) (outs1 outs2 : List (FieldName × FetchOutcome))
    (h : outs1.map (fun fo => (fo.1, fo.2.shape)) = outs2.map (fun fo => (fo.1, fo.2.shape))) :
    failDiags s outs1 = failDiags s outs2 := by
  have key : ∀ outs : List (FieldName × FetchOutcome),
      failDiags s outs = (outs.map (fun fo => (fo.1, fo.2.shape))).filterMap (fun fo =>
        match fo.2 with
        | .value _ => none
        | .absent => some (Diag.UnresolvedValueError s fo.1)
        | .unavailable => some (Diag.SourceUnavailableError s fo.1)) := by
    intro outs
    rw [List.filterMap_map]
    unfold failDiags
    apply List.filterMap_congr
    intro fo _
    rcases fo with ⟨a, o⟩
    cases o <;> rfl
  rw [key outs1, key outs2, h]

theorem okValues_keys_shape_congr (outs1 outs2 : List (FieldName × FetchOutcome))
    (h : outs1.map (fun fo => (fo.1, fo.2.shape)) = outs2.map (fun fo => (fo.1, fo.2.shape))) :
    (okValues outs1).map Prod.fst = (okValues outs2).map Prod.fst := by
  have key : ∀ outs : List (FieldName × FetchOutcome),
      (okValues outs).map Prod.fst =
        (outs.map (fun fo => (fo.1, fo.2.shape))).filterMap (fun fo =>
          match fo.2 with | .value _ => some fo.1 | _ => none) := by
    intro outs
    rw [List.filterMap_map]
    unfold okValues
    rw [List.map_filterMap]
    apply List.filterMap_congr
    intro fo _
    rcases fo with ⟨a, o⟩
    cases o <;> rfl
  rw [key outs1, key outs2, h]

/-- The diagnostics and success flag that one materialization attempt
contributes to a secret's status. -/
def matProj (s : SecretName) : Except ProviderError Resource → List Diag × Bool
  | .ok _ => ([], true)
  | .error (.IncompleteFieldSetError sn m) => ([Diag.IncompleteFieldSet sn m], false)
  | .error _ => ([Diag.InvalidDeclaration s], false)

theorem materialize_keys_congr (p : Provider) (s : SecretName)
    (v1 v2 : List (FieldName × RawValue)) (h : v1.map Prod.fst = v2.map Prod.fst) :
    matProj s (materialize p s v1) = matProj s (materialize p s v2) := by
  unfold materialize
  rw [h]
  cases hf : (if p.requireAll then
      p.fieldSchema.find? (fun fs => !((v2.map Prod.fst).contains fs.fieldName))
    else none) with
  | none => rfl
  | some fs => rfl

theorem secretStatusCore_shape_congr (r1 r2 : Registry) (s : SecretName)
    (outs1 outs2 : List (FieldName × FetchOutcome))
    (hsec : r1.secrets = r2.secrets) (hprov : r1.providers = r2.providers)
    (h : outs1.map (fun fo => (fo.1, fo.2.shape)) = outs2.map (fun fo => (fo.1, fo.2.shape))) :
    (secretStatusCore r1 s outs1).1 = (secretStatusCore r2 s outs2).1 ∧
    (secretStatusCore r1 s outs1).2.isSome = (secretStatusCore r2 s outs2).2.isSome := by
  have hfd := failDiags_shape_congr s outs1 outs2 h
  have hkeys := okValues_keys_shape_congr outs1 outs2 h
  unfold secretStatusCore
  rw [hfd, hsec, hprov]
  by_cases he : (failDiags s outs2).isEmpty
  · rw [if_pos he, if_pos he]
    cases hd : findDecl r2.secrets s with
    | none => exact ⟨rfl, rfl⟩
    | some decl =>
      dsimp only
      cases hp : findProvider r2.providers decl.providerId with
      | none => exact ⟨rfl, rfl⟩
      | some prov =>
        dsimp only
        have hmp := materialize_keys_congr prov s (okValues outs1) (okValues outs2) hkeys
        cases hm1 : materialize prov s (okValues outs1) with
        | ok res1 =>
          cases hm2 : materialize prov s (okValues outs2) with
          | ok res2 => exact ⟨rfl, rfl⟩
          | error e2 =>
            rw [hm1, hm2] at hmp
            cases e2 <;> simp [matProj] at hmp
        | error e1 =>
          cases hm2 : materialize prov s (okValues outs2) with
          | ok res2 =>
            rw [hm1, hm2] at hmp
            cases e1 <;> simp [matProj] at hmp
          | error e2 =>
            rw [hm1, hm2] at hmp
            cases e1 <;> cases e2 <;> simp only [matProj] at hmp <;> simp_all
  · rw [if_neg he, if_neg he]
    exact ⟨rfl, rfl⟩

/-- The identity-relevant projection of a secret status: its name, its
diagnostics, and whether it materialized. -/
def statusProj (x : SecretName × (List Diag × Option Resource)) :
    SecretName × List Diag × Bool :=
  (x.1, x.2.1, x.2.2.isSome)

theorem statusesWith_shape_congr (r1 r2 : Registry) (reqs : List InjectionRequest)
    (g1 g2 : SecretName × FieldName → FetchOutcome)
    (hsec : r1.secrets = r2.secrets) (hprov : r1.providers = r2.providers)
    (hg : ∀ p ∈ referencedPairs reqs, (g1 p).shape = (g2 p).shape) :
    (statusesWith r1 reqs g1).map statusProj = (statusesWith r2 reqs g2).map statusProj := by
  unfold statusesWith
  rw [List.map_map, List.map_map]
  apply List.map_congr_left
  intro s _
  have houts : ((fieldsOf reqs s).map (fun f => (f, g1 (s, f)))).map
      (fun fo => (fo.1, FetchOutcome.shape fo.2)) =
      ((fieldsOf reqs s).map (fun f => (f, g2 (s, f)))).map
        (fun fo => (fo.1, FetchOutcome.shape fo.2)) := by
    rw [List.map_map, List.map_map]
    apply List.map_congr_left
    intro f hf
    have hs := hg (s, f) ((mem_fieldsOf reqs s f).mp hf)
    simp only [Function.comp]
    rw [hs]
  have hcore := secretStatusCore_shape_congr r1 r2 s _ _ hsec hprov houts
  simp only [Function.comp, statusProj]
  rw [hcore.1, hcore.2]

theorem statusDiagsWith_of_proj (r : Registry) (reqs : List InjectionRequest)
    (g : SecretName × FieldName → FetchOutcome) :
    statusDiagsWith r reqs g =
      ((statusesWith r reqs g).map statusProj).flatMap (fun t => t.2.1) := by
  unfold statusDiagsWith
  rw [List.flatMap_map]
  rfl

theorem matNames_of_proj (r : Registry) (reqs : List InjectionRequest)
    (g : SecretName × FieldName → FetchOutcome) :
    (matWith r reqs g).map Prod.fst =
      ((statusesWith r reqs g).map statusProj).filterMap
        (fun t => if t.2.2 then some t.1 else none) := by
  unfold matWith
  rw [List.map_filterMap, List.filterMap_map]
  apply List.filterMap_congr
  intro x _
  rcases x with ⟨s, d, o⟩
  cases o <;> rfl

/-- Claim C8: the emitted plans (the injection fragments) and the
diagnostics never depend on the raw resolved values: two registries with the
same declarations and providers whose connectors resolve every referenced
pair to the same outcome shape (value present / absent / unavailable), with
arbitrarily different raw values, emit identical plans and diagnostics —
a fragment only references the materialized resource. -/
theorem run_value_independent (r1 r2 : Registry) (reqs : List InjectionRequest)
    (hsec : r1.secrets = r2.secrets) (hprov : r1.providers = r2.providers)
    (hshape : ∀ p ∈ referencedPairs reqs,
      (resolveOne r1 p).shape = (resolveOne r2 p).shape) :
    (run r1 reqs).plans = (run r2 reqs).plans ∧
    (run r1 reqs).diags = (run r2 reqs).diags := by
  have hg : ∀ p ∈ referencedPairs reqs,
      (outcomeOf r1 (referencedPairs reqs) p).shape =
      (outcomeOf r2 (referencedPairs reqs) p).shape := by
    intro p hp
    rw [outcomeOf_eq_resolveOne r1 _ p hp, outcomeOf_eq_resolveOne r2 _ p hp]
    exact hshape p hp
  have hstat := statusesWith_shape_congr r1 r2 reqs _ _ hsec hprov hg
  have hds1 : statusDiagsWith r1 reqs (outcomeOf r1 (referencedPairs reqs)) =
      statusDiagsWith r2 reqs (outcomeOf r2 (referencedPairs reqs)) := by
    rw [statusDiagsWith_of_proj, statusDiagsWith_of_proj, hstat]
  have hnames : (runMat r1 reqs).map Prod.fst = (runMat r2 reqs).map Prod.fst := by
    unfold runMat
    rw [matNames_of_proj, matNames_of_proj, hstat]
  have hres : planResults r1 ((runMat r1 reqs).map Prod.fst) reqs =
      planResults r2 ((runMat r2 reqs).map Prod.fst) reqs := by
    rw [hnames]
    unfold planResults
    apply List.map_congr_left
    intro iq _
    unfold planOne
    rw [hsec, hprov]
  have hentries : runEntries r1 reqs = runEntries r2 reqs := by
    unfold runEntries
    exact congrArg planEntries hres
  constructor
  · have hp1 : (run r1 reqs).plans =
        (dedupByKey id ((dedupByKey injKey (runEntries r1 reqs)).map PlannedEntry.ownerUnitId)).map
          (fun u => (u, List.insertionSort entryLE
            ((dedupByKey injKey (runEntries r1 reqs)).filter (fun e => e.ownerUnitId == u)))) := rfl
    have hp2 : (run r2 reqs).plans =
        (dedupByKey id ((dedupByKey injKey (runEntries r2 reqs)).map PlannedEntry.ownerUnitId)).map
          (fun u => (u, List.insertionSort entryLE
            ((dedupByKey injKey (runEntries r2 reqs)).filter (fun e => e.ownerUnitId == u)))) := rfl
    rw [hp1, hp2, hentries]
  · rw [run_diags_split, run_diags_split, hds1, hentries, congrArg planDiags hres]

/-- A connector with the same outcome shapes as `sampleEnv` but different
raw values. -/
def sampleEnvAlt : Connector :=
  { fetch := fun s f =>
      if s = "API_CREDENTIALS" ∧ f = "username" then .value "other-admin"
      else if s = "API_CREDENTIALS" ∧ f = "password" then .value "different"
      else .absent }

/-- The sample registry with the alternate connector values. -/
def sampleRegAlt : Registry :=
  { sampleReg with connectors := [("EnvConnector", sampleEnvAlt)] }

/-- Witness for C8: changing the raw secret values changes neither the plans
nor the diagnostics of the sample run. -/
theorem run_value_independent_witness :
    (sampleReg.secrets = sampleRegAlt.secrets ∧
      sampleReg.providers = sampleRegAlt.providers ∧
      ∀ p ∈ referencedPairs sampleReqs,
        (resolveOne sampleReg p).shape = (resolveOne sampleRegAlt p).shape) ∧
    ((run sampleReg sampleReqs).plans = (run sampleRegAlt sampleReqs).plans ∧
      (run sampleReg sampleReqs).diags = (run sampleRegAlt sampleReqs).diags) :=
  ⟨⟨rfl, rfl, by decide⟩,
    run_value_independent sampleReg sampleRegAlt sampleReqs rfl rfl (by decide)⟩

/-! ### The in-memory filesystem test harness -/

/-- Modelled from the spec: the state of `InMemoryFileSystem`
(`InMemoryFileSystem.ts` itself is absent from the sources; the model follows
the behaviour its unit tests document): a set of normalized directory paths
and a map from normalized file paths to contents.  The root `/` always
exists and is not stored. -/
structure MemFS where
  dirs : List String
  files : List (String × String)
deriving DecidableEq, Repr

/-- Modelled from the spec: the error taxonomy of the filesystem harness, as
exercised by its unit tests. -/
inductive FSError where
  | ENOENT (p : String)
  | EEXIST (p : String)
  | ENOTDIR (p : String)
  | EISDIR (p : String)
  | ENOTEMPTY (p : String)
  | EPERM (p : String)
deriving DecidableEq, Repr

/-- The node-style message of each filesystem error. -/
def FSError.message : FSError → String
  | .ENOENT p => "ENOENT: no such file or directory, " ++ p
  | .EEXIST p => "EEXIST: file already exists, " ++ p
  | .ENOTDIR p => "ENOTDIR: not a directory, " ++ p
  | .EISDIR p => "EISDIR: illegal operation on a directory, " ++ p
  | .ENOTEMPTY p => "ENOTEMPTY: directory not empty, " ++ p
  | .EPERM p => "EPERM: operation not permitted, " ++ p

/-- Path normalization step 1: backslashes become slashes. -/
def normSlashes (cs : List Char) : List Char :=
  cs.map (fun c => if c = '\\' then '/' else c)

/-- Split a character list on slashes. -/
def splitSlash : List Char → List (List Char)
  | [] => [[]]
  | c :: cs =>
    if c = '/' then [] :: splitSlash cs
    else
      match splitSlash cs with
      | [] => [[c]]
      | g :: gs => (c :: g) :: gs

/-- The non-empty path components of a path: backslashes are normalized,
leading and trailing slashes are ignored. -/
def pathComps (p : String) : List (List Char) :=
  (splitSlash (normSlashes p.data)).filter (fun g => !g.isEmpty)

/-- Rebuild the normalized absolute path of a component list. -/
def joinComps (cs : List (List Char)) : String :=
  if cs.isEmpty then "/" else ⟨cs.flatMap (fun c => '/' :: c)⟩

/-- The normalized form of a path. -/
def normalizePath (p : String) : String := joinComps (pathComps p)

/-- The proper ancestors of a component list, as normalized paths (all
strict non-empty prefixes). -/
def ancestorPaths (cs : List (List Char)) : List String :=
  (List.range (cs.length - 1)).map (fun i => joinComps (cs.take (i + 1)))

/-- Boolean character-list prefix test. -/
def charPrefix : List Char → List Char → Bool
  | [], _ => true
  | _ :: _, [] => false
  | a :: as, b :: bs => a == b && charPrefix as bs

/-- Is the normalized path `q` strictly below the normalized path `n`? -/
def isUnder (n q : String) : Bool :=
  charPrefix (n.data ++ ['/']) q.data

/-- Is the normalized path a directory of the filesystem? -/
def isDir (fs : MemFS) (p : String) : Bool :=
  p == "/" || fs.dirs.contains p

/-- Is the normalized path a file of the filesystem? -/
def isFile (fs : MemFS) (p : String) : Bool :=
  (fs.files.map Prod.fst).contains p

/-- Modelled from the spec: `exists` of the harness — true for the root, for
created directories and for written files, on any spelling of the path. -/
def pathExists (fs : MemFS) (p : String) : Bool :=
  isDir fs (normalizePath p) || isFile fs (normalizePath p)

/-- Modelled from the spec: `mkdir` of the harness.  Ancestor validation
runs first: if any proper ancestor is an existing file the call throws
`ENOTDIR` and creates nothing; an existing file at the full path throws
`EEXIST`; with `recursive` all missing ancestors and the directory are
created atomically; without it the parent must already exist (`ENOENT`) and
the path must be new (`EEXIST`). -/
def mkdir (fs : MemFS) (p : String) (recursive : Bool) : Except FSError MemFS :=
  if (pathComps p).isEmpty then .ok fs
  else
    match (ancestorPaths (pathComps p)).find? (fun a => isFile fs a) with
    | some a => .error (.ENOTDIR a)
    | none =>
      if isFile fs (joinComps (pathComps p)) then .error (.EEXIST (joinComps (pathComps p)))
      else if recursive then
        if isDir fs (joinComps (pathComps p)) then .ok fs
        else .ok { fs with dirs := fs.dirs ++
          ((ancestorPaths (pathComps p)).filter (fun a => !(isDir fs a))) ++
          [joinComps (pathComps p)] }
      else
        if isDir fs (joinComps (pathComps p)) then .error (.EEXIST (joinComps (pathComps p)))
        else if isDir fs (joinComps ((pathComps p).dropLast)) then
          .ok { fs with dirs := fs.dirs ++ [joinComps (pathComps p)] }
        else .error (.ENOENT (normalizePath p))

/-- Modelled from the spec: `remove` of the harness.  The root is protected
(`EPERM`, checked before anything else); files are deleted; a non-empty
directory needs `recursive` (`ENOTEMPTY`); a missing path throws `ENOENT`
unless `force` is set. -/
def remove (fs : MemFS) (p : String) (recursive force : Bool) : Except FSError MemFS :=
  if normalizePath p = "/" then .error (.EPERM (normalizePath p))
  else if isFile fs (normalizePath p) then
    .ok { fs with files := fs.files.filter (fun kv => kv.1 != normalizePath p) }
  else if isDir fs (normalizePath p) then
    if (fs.dirs.any (fun d => isUnder (normalizePath p) d) ||
        fs.files.any (fun kv => isUnder (normalizePath p) kv.1)) && !recursive then
      .error (.ENOTEMPTY (normalizePath p))
    else
      .ok { dirs := fs.dirs.filter
              (fun d => d != normalizePath p && !(isUnder (normalizePath p) d))
            files := fs.files.filter (fun kv => !(isUnder (normalizePath p) kv.1)) }
  else if force then .ok fs
  else .error (.ENOENT (normalizePath p))

/-- The state after a `remove` call, unchanged when the call throws. -/
def removeStep (fs : MemFS) (p : String) (recursive force : Bool) : MemFS :=
  match remove fs p recursive force with
  | .ok fs2 => fs2
  | .error _ => fs

/-- The state after a `mkdir` call, unchanged when the call throws. -/
def mkdirStep (fs : MemFS) (p : String) (recursive : Bool) : MemFS :=
  match mkdir fs p recursive with
  | .ok fs2 => fs2
  | .error _ => fs

/-- Claim C9: removing the root path `/` — with or without the recursive
option, and with or without force — throws `EPERM` with the
operation-not-permitted message and leaves the filesystem state completely
unchanged: every previously existing path still exists afterwards. -/
theorem remove_root_eperm (fs : MemFS) (recursive force : Bool) :
    remove fs "/" recursive force = .error (.EPERM "/") ∧
    (FSError.EPERM "/").message = "EPERM: operation not permitted, /" ∧
    removeStep fs "/" recursive force = fs ∧
    (∀ p : String, pathExists (removeStep fs "/" recursive force) p = pathExists fs p) :=
  ⟨rfl, rfl, rfl, fun _ => rfl⟩

/-- Claim C10: when some proper ancestor component of the requested path is
an existing file, `mkdir` with the recursive option throws `ENOTDIR` naming
a file ancestor and creates no directories at all — the filesystem state
after the failed call equals the state before it. -/
theorem mkdir_file_ancestor_enotdir (fs : MemFS) (p : String) (a : String)
    (ha : a ∈ ancestorPaths (pathComps p)) (hf : isFile fs a = true) :
    (∃ b, mkdir fs p true = .error (.ENOTDIR b) ∧
      b ∈ ancestorPaths (pathComps p) ∧ isFile fs b = true ∧
      (FSError.ENOTDIR b).message = "ENOTDIR: not a directory, " ++ b) ∧
    mkdirStep fs p true = fs := by
  have hfind : ((ancestorPaths (pathComps p)).find? (fun x => isFile fs x)).isSome := by
    rw [List.find?_isSome]
    exact ⟨a, ha, hf⟩
  obtain ⟨b, hb⟩ := Option.isSome_iff_exists.mp hfind
  have hbmem := List.mem_of_find?_eq_some hb
  have hbfile : isFile fs b = true := List.find?_some hb
  obtain ⟨i, hi, _⟩ := List.mem_map.mp ha
  have hlen : 0 < (pathComps p).length - 1 :=
    lt_of_le_of_lt (Nat.zero_le i) (List.mem_range.mp hi)
  have hnil : pathComps p ≠ [] := by
    intro h0
    rw [h0] at hlen
    simp at hlen
  have hne : ¬((pathComps p).isEmpty = true) := by
    simpa [List.isEmpty_iff] using hnil
  have hm : mkdir fs p true = .error (.ENOTDIR b) := by
    unfold mkdir
    rw [if_neg hne, hb]
  refine ⟨⟨b, hm, hbmem, hbfile, rfl⟩, ?_⟩
  unfold mkdirStep
  rw [hm]

/-- The filesystem of the ancestor-validation test: a directory `/parent`
holding the file `/parent/file.txt`. -/
def sampleFS : MemFS :=
  { dirs := ["/parent"], files := [("/parent/file.txt", "content")] }

/-- Witness for C10: creating `/parent/file.txt/subdir` recursively in the
test filesystem throws `ENOTDIR` and changes nothing. -/
theorem mkdir_file_ancestor_enotdir_witness :
    (("/parent/file.txt" : String) ∈ ancestorPaths (pathComps "/parent/file.txt/subdir") ∧
      isFile sampleFS "/parent/file.txt" = true) ∧
    ((∃ b, mkdir sampleFS "/parent/file.txt/subdir" true = .error (.ENOTDIR b) ∧
        b ∈ ancestorPaths (pathComps "/parent/file.txt/subdir") ∧
        isFile sampleFS b = true ∧
        (FSError.ENOTDIR b).message = "ENOTDIR: not a directory, " ++ b) ∧
      mkdirStep sampleFS "/parent/file.txt/subdir" true = sampleFS) :=
  ⟨⟨by decide, by decide⟩,
    mkdir_file_ancestor_enotdir sampleFS "/parent/file.txt/subdir" "/parent/file.txt"
      (by decide) (by decide)⟩

/-! ### Failure isolation and batch diagnostics -/

/-- Did a fetch fail (explicit absence or unreachable source)? -/
def isFail : FetchOutcome → Bool
  | .value _ => false
  | .absent => true
  | .unavailable => true

/-- The `(secretName, fieldName)` key of a resolution-time diagnostic. -/
def pairDiagKey : Diag → Option (SecretName × FieldName)
  | .UnresolvedValueError s f => some (s, f)
  | .SourceUnavailableError s f => some (s, f)
  | _ => none

/-- The request-index key of a request-level diagnostic. -/
def reqDiagKey : Diag → Option Nat
  | .FieldNotSupported i _ _ => some i
  | .KindNotSupported i _ _ _ => some i
  | .UpstreamSecretFailed i _ => some i
  | _ => none

/-- The keys of the referenced fields of a secret whose fetch failed. -/
def pairFailKeys (r : Registry) (reqs : List InjectionRequest) (t : SecretName) :
    List (SecretName × FieldName) :=
  (fieldsOf reqs t).filterMap (fun f =>
    if isFail (resolveOne r (t, f)) then some ((t : SecretName), f) else none)

theorem run_statuses (r : Registry) (reqs : List InjectionRequest) :
    statusesWith r reqs (outcomeOf r (referencedPairs reqs)) =
      (referencedSecrets reqs).map (fun s => (s, secretStatus r reqs s)) := by
  unfold statusesWith
  apply List.map_congr_left
  intro s _
  have houts : (fieldsOf reqs s).map (fun f => (f, outcomeOf r (referencedPairs reqs) (s, f))) =
      (fieldsOf reqs s).map (fun f => (f, resolveOne r (s, f))) := by
    apply List.map_congr_left
    intro f hf
    rw [outcomeOf_eq_resolveOne r _ (s, f) ((mem_fieldsOf reqs s f).mp hf)]
  rw [houts]
  rfl

theorem run_statusDiags (r : Registry) (reqs : List InjectionRequest) :
    statusDiagsWith r reqs (outcomeOf r (referencedPairs reqs)) =
      (referencedSecrets reqs).flatMap (fun t => (secretStatus r reqs t).1) := by
  unfold statusDiagsWith
  rw [run_statuses, List.flatMap_map]

theorem failDiags_pairKeys (r : Registry) (reqs : List InjectionRequest) (t : SecretName) :
    (failDiags t ((fieldsOf reqs t).map (fun f => (f, resolveOne r (t, f))))).filterMap
      pairDiagKey = pairFailKeys r reqs t := by
  unfold failDiags pairFailKeys
  rw [List.filterMap_filterMap, List.filterMap_map]
  apply List.filterMap_congr
  intro f _
  cases ho : resolveOne r (t, f) <;> simp [ho, isFail, pairDiagKey]

theorem secretStatus_pairKeys (r : Registry) (reqs : List InjectionRequest) (t : SecretName) :
    ((secretStatus r reqs t).1).filterMap pairDiagKey = pairFailKeys r reqs t := by
  have hkey := failDiags_pairKeys r reqs t
  unfold secretStatus secretStatusCore
  by_cases he : (failDiags t ((fieldsOf reqs t).map (fun f => (f, resolveOne r (t, f))))).isEmpty
  · rw [if_pos he]
    have hnil : failDiags t ((fieldsOf reqs t).map (fun f => (f, resolveOne r (t, f)))) = [] := by
      rwa [List.isEmpty_iff] at he
    rw [hnil] at hkey
    simp only [List.filterMap_nil] at hkey
    rw [← hkey]
    cases hd : findDecl r.secrets t with
    | none => rfl
    | some decl =>
      dsimp only
      cases hp : findProvider r.providers decl.providerId with
      | none => rfl
      | some prov =>
        dsimp only
        cases hm : materialize prov t
            (okValues ((fieldsOf reqs t).map (fun f => (f, resolveOne r (t, f))))) with
        | ok res => rfl
        | error e => cases e <;> rfl
  · rw [if_neg he]
    exact hkey

theorem secretStatus_reqKeys (r : Registry) (reqs : List InjectionRequest) (t : SecretName) :
    ((secretStatus r reqs t).1).filterMap reqDiagKey = [] := by
  unfold secretStatus secretStatusCore
  by_cases he : (failDiags t ((fieldsOf reqs t).map (fun f => (f, resolveOne r (t, f))))).isEmpty
  · rw [if_pos he]
    cases hd : findDecl r.secrets t with
    | none => rfl
    | some decl =>
      dsimp only
      cases hp : findProvider r.providers decl.providerId with
      | none => rfl
      | some prov =>
        dsimp only
        cases hm : materialize prov t
            (okValues ((fieldsOf reqs t).map (fun f => (f, resolveOne r (t, f))))) with
        | ok res => rfl
        | error e => cases e <;> rfl
  · rw [if_neg he]
    unfold failDiags
    rw [List.filterMap_filterMap, List.filterMap_eq_nil_iff]
    intro fo _
    rcases fo with ⟨a, o⟩
    cases o <;> rfl

theorem materialize_name (p : Provider) (s : SecretName) (v : List (FieldName × RawValue))
    (res : Resource) (h : materialize p s v = .ok res) : res.name = s := by
  unfold materialize at h
  cases hif : (if p.requireAll then
      p.fieldSchema.find? (fun fs => !((v.map Prod.fst).contains fs.fieldName))
    else none) with
  | none =>
    rw [hif] at h
    simp only [Except.ok.injEq] at h
    rw [← h]
  | some fs =>
    rw [hif] at h
    simp at h

theorem secretStatus_res_name (r : Registry) (reqs : List InjectionRequest) (t : SecretName)
    (res : Resource) (h : (secretStatus r reqs t).2 = some res) : res.name = t := by
  unfold secretStatus secretStatusCore at h
  by_cases he : (failDiags t ((fieldsOf reqs t).map (fun f => (f, resolveOne r (t, f))))).isEmpty
  · rw [if_pos he] at h
    cases hd : findDecl r.secrets t with
    | none => rw [hd] at h; simp at h
    | some decl =>
      rw [hd] at h
      dsimp only at h
      cases hp : findProvider r.providers decl.providerId with
      | none => rw [hp] at h; simp at h
      | some prov =>
        rw [hp] at h
        dsimp only at h
        cases hm : materialize prov t
            (okValues ((fieldsOf reqs t).map (fun f => (f, resolveOne r (t, f))))) with
        | ok res2 =>
          rw [hm] at h
          dsimp only at h
          have hr : res2 = res := by simpa using h
          rw [← hr]
          exact materialize_name prov t _ res2 hm
        | error e =>
          rw [hm] at h
          cases e <;> simp at h
  · rw [if_neg he] at h
    simp at h

theorem secretStatus_failed_none (r : Registry) (reqs : List InjectionRequest)
    (s : SecretName) (f : FieldName) (hf : f ∈ fieldsOf reqs s)
    (hfail : isFail (resolveOne r (s, f)) = true) :
    (secretStatus r reqs s).2 = none := by
  unfold secretStatus secretStatusCore
  have hne : failDiags s ((fieldsOf reqs s).map (fun f => (f, resolveOne r (s, f)))) ≠ [] := by
    intro h0
    have hkey := failDiags_pairKeys r reqs s
    rw [h0] at hkey
    simp only [List.filterMap_nil] at hkey
    have hmem : ((s : SecretName), f) ∈ pairFailKeys r reqs s := by
      unfold pairFailKeys
      exact List.mem_filterMap.mpr ⟨f, hf, by rw [if_pos hfail]⟩
    rw [← hkey] at hmem
    cases hmem
  rw [if_neg (by simpa [List.isEmpty_iff] using hne)]

theorem planOne_error_keys (r : Registry) (mats : List SecretName) (i : Nat)
    (q : InjectionRequest) (d : Diag) (h : planOne r mats i q = .error d) :
    reqDiagKey d = some i ∧ pairDiagKey d = none := by
  unfold planOne at h
  by_cases hc : mats.contains q.secretName
  · rw [if_pos hc] at h
    cases hd : findDecl r.secrets q.secretName with
    | none =>
      rw [hd] at h
      simp only [Except.error.injEq] at h
      rw [← h]
      exact ⟨rfl, rfl⟩
    | some decl =>
      rw [hd] at h
      dsimp only at h
      cases hp : findProvider r.providers decl.providerId with
      | none =>
        rw [hp] at h
        simp only [Except.error.injEq] at h
        rw [← h]
        exact ⟨rfl, rfl⟩
      | some prov =>
        rw [hp] at h
        dsimp only at h
        cases hb : buildInjectionFragment prov decl.providerId q.secretName q.fieldName
            q.targetKind q.targetOptions with
        | ok frag => rw [hb] at h; simp at h
        | error pe =>
          rw [hb] at h
          cases pe <;>
            (simp only [Except.error.injEq] at h; rw [← h]; exact ⟨rfl, rfl⟩)
  · rw [if_neg hc] at h
    simp only [Except.error.injEq] at h
    rw [← h]
    exact ⟨rfl, rfl⟩

theorem filterMap_sublist_map {α β : Type} (l : List α) (g : α → Option β) (k : α → β)
    (h : ∀ x ∈ l, ∀ y, g x = some y → y = k x) :
    List.Sublist (l.filterMap g) (l.map k) := by
  induction l with
  | nil => simp
  | cons x xs ih =>
    rw [List.filterMap_cons, List.map_cons]
    cases hg : g x with
    | none => exact (ih (fun a ha y hy => h a (List.mem_cons_of_mem _ ha) y hy)).cons _
    | some y =>
      rw [h x (List.mem_cons_self _ _) y hg]
      exact (ih (fun a ha y2 hy2 => h a (List.mem_cons_of_mem _ ha) y2 hy2)).cons₂ _

theorem filterMap_flatMap_eq {α β γ : Type} (l : List α) (g : α → List β) (h : β → Option γ) :
    (l.flatMap g).filterMap h = l.flatMap (fun a => (g a).filterMap h) := by
  induction l with
  | nil => rfl
  | cons x xs ih => simp [List.flatMap_cons, List.filterMap_append, ih]

theorem flatMap_nil_of_forall {α β : Type} (l : List α) (g : α → List β)
    (h : ∀ a ∈ l, g a = []) : l.flatMap g = [] := by
  induction l with
  | nil => rfl
  | cons x xs ih =>
    rw [List.flatMap_cons, h x (List.mem_cons_self _ _), List.nil_append,
      ih (fun a ha => h a (List.mem_cons_of_mem _ ha))]

theorem sum_single {α : Type} (l : List α) (g : α → Nat) (s : α)
    (hs : s ∈ l) (hnd : l.Nodup) (hzero : ∀ t ∈ l, t ≠ s → g t = 0) (hone : g s = 1) :
    (l.map g).sum = 1 := by
  induction l with
  | nil => cases hs
  | cons x xs ih =>
    rw [List.map_cons, List.sum_cons]
    rcases List.mem_cons.mp hs with rfl | hs'
    · have hz : (xs.map g).sum = 0 := by
        apply List.sum_eq_zero
        intro y hy
        obtain ⟨t, ht, rfl⟩ := List.mem_map.mp hy
        exact hzero t (List.mem_cons_of_mem _ ht)
          (fun he => (List.nodup_cons.mp hnd).1 (he ▸ ht))
      rw [hone, hz]
    · have hx : g x = 0 := hzero x (List.mem_cons_self _ _)
        (fun he => (List.nodup_cons.mp hnd).1 (he.symm ▸ hs'))
      rw [hx, ih hs' (List.nodup_cons.mp hnd).2
        (fun t ht => hzero t (List.mem_cons_of_mem _ ht))]

theorem count_eq_one_of_nodup_mem {α : Type} [BEq α] [LawfulBEq α] {l : List α} {a : α}
    (hnd : l.Nodup) (ha : a ∈ l) : l.count a = 1 := by
  induction l with
  | nil => cases ha
  | cons x xs ih =>
    rw [List.count_cons]
    rcases List.mem_cons.mp ha with rfl | ha'
    · have hz : xs.count a = 0 := by
        rw [List.count_eq_zero]
        exact (List.nodup_cons.mp hnd).1
      simp [hz]
    · have hne : a ≠ x := by
        intro he
        exact (List.nodup_cons.mp hnd).1 (he ▸ ha')
      rw [ih (List.nodup_cons.mp hnd).2 ha']
      simp [hne, Ne.symm hne]

theorem conflictDiags_pairKeys (entries : List PlannedEntry) :
    (conflictDiags entries).filterMap pairDiagKey = [] := by
  rw [List.filterMap_eq_nil_iff]
  intro d hd
  obtain ⟨ab, _, hab⟩ := List.mem_filterMap.mp hd
  by_cases hc : groupKey ab.1 = groupKey ab.2 ∧ ab.1.fragment ≠ ab.2.fragment
  · rw [if_pos hc] at hab
    simp only [Option.some.injEq] at hab
    rw [← hab]
    rfl
  · rw [if_neg hc] at hab
    cases hab

theorem conflictDiags_reqKeys (entries : List PlannedEntry) :
    (conflictDiags entries).filterMap reqDiagKey = [] := by
  rw [List.filterMap_eq_nil_iff]
  intro d hd
  obtain ⟨ab, _, hab⟩ := List.mem_filterMap.mp hd
  by_cases hc : groupKey ab.1 = groupKey ab.2 ∧ ab.1.fragment ≠ ab.2.fragment
  · rw [if_pos hc] at hab
    simp only [Option.some.injEq] at hab
    rw [← hab]
    rfl
  · rw [if_neg hc] at hab
    cases hab

theorem planDiags_pairKeys (r : Registry) (mats : List SecretName)
    (reqs : List InjectionRequest) :
    (planDiags (planResults r mats reqs)).filterMap pairDiagKey = [] := by
  unfold planDiags planResults
  rw [List.filterMap_filterMap, List.filterMap_map, List.filterMap_eq_nil_iff]
  intro iq _
  dsimp only [Function.comp]
  cases hpo : planOne r mats iq.1 iq.2 with
  | ok e => rfl
  | error d =>
    have hk := (planOne_error_keys r mats iq.1 iq.2 d hpo).2
    simpa using hk

theorem planDiags_reqKeys_sublist (r : Registry) (mats : List SecretName)
    (reqs : List InjectionRequest) :
    List.Sublist ((planDiags (planResults r mats reqs)).filterMap reqDiagKey)
      (List.range reqs.length) := by
  rw [← List.enum_map_fst reqs]
  unfold planDiags planResults
  rw [List.filterMap_filterMap, List.filterMap_map]
  apply filterMap_sublist_map
  intro iq _ y hy
  dsimp only [Function.comp] at hy
  cases hpo : planOne r mats iq.1 iq.2 with
  | ok e => rw [hpo] at hy; simp at hy
  | error d =>
    rw [hpo] at hy
    have hk := (planOne_error_keys r mats iq.1 iq.2 d hpo).1
    have hy2 : reqDiagKey d = some y := hy
    rw [hk] at hy2
    simpa using hy2.symm

theorem runMat_eq (r : Registry) (reqs : List InjectionRequest) :
    runMat r reqs = (referencedSecrets reqs).filterMap
      (fun t => ((secretStatus r reqs t).2).map (fun res => ((t : SecretName), res))) := by
  unfold runMat matWith
  rw [run_statuses, List.filterMap_map]
  rfl

theorem mem_runMat (r : Registry) (reqs : List InjectionRequest) (t : SecretName)
    (res : Resource) :
    (t, res) ∈ runMat r reqs ↔
      t ∈ referencedSecrets reqs ∧ (secretStatus r reqs t).2 = some res := by
  rw [runMat_eq]
  constructor
  · intro h
    obtain ⟨t', ht', heq⟩ := List.mem_filterMap.mp h
    cases hs : (secretStatus r reqs t').2 with
    | none => rw [hs] at heq; cases heq
    | some res' =>
      rw [hs] at heq
      simp only [Option.map_some', Option.some.injEq, Prod.mk.injEq] at heq
      obtain ⟨h1, h2⟩ := heq
      rw [← h1, ← h2]
      exact ⟨ht', hs⟩
  · rintro ⟨ht, hs⟩
    exact List.mem_filterMap.mpr ⟨t, ht, by rw [hs]; rfl⟩

theorem run_resources_perm (r : Registry) (reqs : List InjectionRequest) :
    ((run r reqs).resources).Perm ((runMat r reqs).map Prod.snd) := by
  have h : (run r reqs).resources =
      List.insertionSort resLE ((runMat r reqs).map Prod.snd) := rfl
  rw [h]
  exact List.perm_insertionSort resLE _

theorem pairFailKeys_count_ne (r : Registry) (reqs : List InjectionRequest)
    (t s : SecretName) (f : FieldName) (hts : t ≠ s) :
    (pairFailKeys r reqs t).count ((s : SecretName), f) = 0 := by
  apply List.count_eq_zero_of_not_mem
  intro hmem
  obtain ⟨f', _, hif⟩ := List.mem_filterMap.mp hmem
  by_cases hc : isFail (resolveOne r (t, f')) = true
  · rw [if_pos hc] at hif
    simp only [Option.some.injEq, Prod.mk.injEq] at hif
    exact hts hif.1
  · rw [if_neg hc] at hif
    cases hif

theorem pairFailKeys_count_self (r : Registry) (reqs : List InjectionRequest)
    (s : SecretName) (f : FieldName)
    (hf : f ∈ fieldsOf reqs s) (hfail : isFail (resolveOne r (s, f)) = true) :
    (pairFailKeys r reqs s).count ((s : SecretName), f) = 1 := by
  have hsub : List.Sublist (pairFailKeys r reqs s)
      ((fieldsOf reqs s).map (fun f' => ((s : SecretName), f'))) := by
    unfold pairFailKeys
    apply filterMap_sublist_map
    intro x _ y hy
    by_cases hc : isFail (resolveOne r (s, x)) = true
    · rw [if_pos hc] at hy
      simpa using hy.symm
    · rw [if_neg hc] at hy
      cases hy
  have hmap : ((fieldsOf reqs s).map (fun f' => ((s : SecretName), f'))).Nodup :=
    List.Nodup.map_on (fun x _ y _ h => (Prod.mk.injEq _ _ _ _).mp h |>.2)
      (nodup_fieldsOf reqs s)
  have hnd : (pairFailKeys r reqs s).Nodup := hmap.sublist hsub
  apply count_eq_one_of_nodup_mem hnd
  exact List.mem_filterMap.mpr ⟨f, hf, by rw [if_pos hfail]⟩

theorem run_pair_count (r : Registry) (reqs : List InjectionRequest)
    (s : SecretName) (f : FieldName)
    (hp : (s, f) ∈ referencedPairs reqs)
    (hfail : isFail (resolveOne r (s, f)) = true) :
    ((run r reqs).diags.filterMap pairDiagKey).count (s, f) = 1 := by
  rw [run_diags_split, List.filterMap_append, List.filterMap_append,
      List.count_append, List.count_append,
      planDiags_pairKeys, conflictDiags_pairKeys]
  simp only [List.count_nil, Nat.add_zero]
  rw [run_statusDiags, filterMap_flatMap_eq, List.count_flatMap]
  have hs : s ∈ referencedSecrets reqs :=
    (mem_referencedSecrets reqs s).mpr (List.mem_map.mpr ⟨(s, f), hp, rfl⟩)
  have hff : f ∈ fieldsOf reqs s := (mem_fieldsOf reqs s f).mpr hp
  apply sum_single (referencedSecrets reqs)
    (fun t => (((secretStatus r reqs t).1).filterMap pairDiagKey).count (s, f)) s hs
    (nodup_referencedSecrets reqs)
  · intro t _ hts
    rw [secretStatus_pairKeys]
    exact pairFailKeys_count_ne r reqs t s f hts
  · rw [secretStatus_pairKeys]
    exact pairFailKeys_count_self r reqs s f hff hfail

theorem run_failed_not_in_resources (r : Registry) (reqs : List InjectionRequest)
    (s : SecretName) (f : FieldName)
    (hp : (s, f) ∈ referencedPairs reqs)
    (hfail : isFail (resolveOne r (s, f)) = true) :
    s ∉ (run r reqs).resources.map Resource.name := by
  intro hmem
  obtain ⟨res, hres, hname⟩ := List.mem_map.mp hmem
  have hres2 : res ∈ (runMat r reqs).map Prod.snd :=
    (run_resources_perm r reqs).mem_iff.mp hres
  obtain ⟨⟨t, res'⟩, hmem2, heq⟩ := List.mem_map.mp hres2
  have hchar := (mem_runMat r reqs t res').mp hmem2
  have hnamet : res'.name = t := secretStatus_res_name r reqs t res' hchar.2
  have h3 : res' = res := heq
  have hts : t = s := by
    rw [← hnamet, h3]
    exact hname
  have hnone := secretStatus_failed_none r reqs s f ((mem_fieldsOf reqs s f).mpr hp) hfail
  rw [hts] at hchar
  rw [hchar.2] at hnone
  cases hnone

theorem run_independent_materialized (r : Registry) (reqs : List InjectionRequest)
    (t : SecretName) (res : Resource) (ht : t ∈ referencedSecrets reqs)
    (hres : (secretStatus r reqs t).2 = some res) : res ∈ (run r reqs).resources := by
  have h1 : (t, res) ∈ runMat r reqs := (mem_runMat r reqs t res).mpr ⟨ht, hres⟩
  have h2 : res ∈ (runMat r reqs).map Prod.snd := List.mem_map.mpr ⟨(t, res), h1, rfl⟩
  exact (run_resources_perm r reqs).mem_iff.mpr h2

theorem run_reqKey_count_le (r : Registry) (reqs : List InjectionRequest) (i : Nat) :
    ((run r reqs).diags.filterMap reqDiagKey).count i ≤ 1 := by
  rw [run_diags_split, List.filterMap_append, List.filterMap_append,
      List.count_append, List.count_append, conflictDiags_reqKeys]
  have h1 : (statusDiagsWith r reqs (outcomeOf r (referencedPairs reqs))).filterMap
      reqDiagKey = [] := by
    rw [run_statusDiags, filterMap_flatMap_eq]
    exact flatMap_nil_of_forall _ _ (fun t _ => secretStatus_reqKeys r reqs t)
  rw [h1]
  simp only [List.count_nil, Nat.add_zero, Nat.zero_add]
  have hsub := planDiags_reqKeys_sublist r ((runMat r reqs).map Prod.fst) reqs
  have hnd : ((planDiags (planResults r ((runMat r reqs).map Prod.fst) reqs)).filterMap
      reqDiagKey).Nodup := (List.nodup_range _).sublist hsub
  by_cases hmem : i ∈ (planDiags (planResults r ((runMat r reqs).map Prod.fst)
      reqs)).filterMap reqDiagKey
  · rw [count_eq_one_of_nodup_mem hnd hmem]
  · rw [List.count_eq_zero.mpr hmem]
    exact Nat.zero_le 1

theorem run_failed_request_count (r : Registry) (reqs : List InjectionRequest)
    (i : Nat) (q : InjectionRequest) (d : Diag)
    (hq : reqs[i]? = some q)
    (he : planOne r ((runMat r reqs).map Prod.fst) i q = .error d) :
    ((run r reqs).diags.filterMap reqDiagKey).count i = 1 := by
  rw [run_diags_split, List.filterMap_append, List.filterMap_append,
      List.count_append, List.count_append, conflictDiags_reqKeys]
  have h1 : (statusDiagsWith r reqs (outcomeOf r (referencedPairs reqs))).filterMap
      reqDiagKey = [] := by
    rw [run_statusDiags, filterMap_flatMap_eq]
    exact flatMap_nil_of_forall _ _ (fun t _ => secretStatus_reqKeys r reqs t)
  rw [h1]
  simp only [List.count_nil, Nat.add_zero, Nat.zero_add]
  have hsub := planDiags_reqKeys_sublist r ((runMat r reqs).map Prod.fst) reqs
  have hnd : ((planDiags (planResults r ((runMat r reqs).map Prod.fst) reqs)).filterMap
      reqDiagKey).Nodup := (List.nodup_range _).sublist hsub
  apply count_eq_one_of_nodup_mem hnd
  have henum : (i, q) ∈ reqs.enum := by
    have h2 : reqs.enum[i]? = some (i, q) := by
      rw [List.getElem?_enum, hq]
      rfl
    exact List.getElem?_mem h2
  have hres : (Except.error d : Except Diag PlannedEntry) ∈
      planResults r ((runMat r reqs).map Prod.fst) reqs := by
    unfold planResults
    exact List.mem_map.mpr ⟨(i, q), henum, he⟩
  have hd : d ∈ planDiags (planResults r ((runMat r reqs).map Prod.fst) reqs) :=
    List.mem_filterMap.mpr ⟨.error d, hres, rfl⟩
  exact List.mem_filterMap.mpr ⟨d, hd, (planOne_error_keys r _ i q d he).1⟩

/-- Claim C4: a connector failure for one referenced `(secret, field)` pair
is collected rather than thrown — it appears exactly once in the final
diagnostics keyed by that pair, the failed secret is not materialized, every
independent secret whose own status succeeded still appears in the emitted
resources of the same run, every failed request (a request whose planning
step returns a diagnostic, such as `UpstreamSecretFailed` when its secret
failed upstream) appears exactly once in the diagnostics keyed by its
request index, and every request index is diagnosed at most once. -/
theorem failure_isolation_and_diagnostics (r : Registry) (reqs : List InjectionRequest)
    (s : SecretName) (f : FieldName)
    (hp : (s, f) ∈ referencedPairs reqs)
    (hfail : isFail (resolveOne r (s, f)) = true) :
    ((run r reqs).diags.filterMap pairDiagKey).count (s, f) = 1 ∧
    s ∉ (run r reqs).resources.map Resource.name ∧
    (∀ t res, t ∈ referencedSecrets reqs → (secretStatus r reqs t).2 = some res →
      res ∈ (run r reqs).resources) ∧
    (∀ i q d, reqs[i]? = some q →
      planOne r ((runMat r reqs).map Prod.fst) i q = .error d →
      ((run r reqs).diags.filterMap reqDiagKey).count i = 1) ∧
    (∀ i : Nat, ((run r reqs).diags.filterMap reqDiagKey).count i ≤ 1) :=
  ⟨run_pair_count r reqs s f hp hfail,
    run_failed_not_in_resources r reqs s f hp hfail,
    fun t res ht hres => run_independent_materialized r reqs t res ht hres,
    fun i q d hq he => run_failed_request_count r reqs i q d hq he,
    fun i => run_reqKey_count_le r reqs i⟩

/-- An opaque single-field provider for the failure scenario. -/
def sampleOpaque : Provider := { fieldSchema := [⟨"token", ["env"]⟩], requireAll := false }

/-- A connector that has no value for `API_CREDENTIALS`/`password` but does
hold `OTHER`/`token`. -/
def sampleEnvPartial : Connector :=
  { fetch := fun s f =>
      if s = "API_CREDENTIALS" ∧ f = "username" then .value "admin"
      else if s = "OTHER" ∧ f = "token" then .value "tok"
      else .absent }

/-- The registry of the failure-isolation scenario of §8. -/
def sampleFailReg : Registry :=
  { connectors := [("EnvConnector", sampleEnvPartial)]
    providers := [("ApiCredentialsProvider", sampleBasicAuth), ("OpaqueProvider", sampleOpaque)]
    secrets := [⟨"API_CREDENTIALS", "ApiCredentialsProvider", "EnvConnector"⟩,
                ⟨"OTHER", "OpaqueProvider", "EnvConnector"⟩] }

/-- The requests of the failure-isolation scenario: the missing password and
an unrelated secret. -/
def sampleFailReqs : List InjectionRequest :=
  [⟨"API_CREDENTIALS", "password", "my-app", "env", "API_PASSWORD"⟩,
   ⟨"OTHER", "token", "my-app", "env", "TOKEN"⟩]

/-- Witness for C4: the missing password is reported exactly once, the
secret is not materialized, the unrelated secret still resolves in the same
run, and the upstream-failed request 0 is itself diagnosed exactly once. -/
theorem failure_isolation_and_diagnostics_witness :
    ((("API_CREDENTIALS" : String), ("password" : String)) ∈ referencedPairs sampleFailReqs ∧
      isFail (resolveOne sampleFailReg ("API_CREDENTIALS", "password")) = true) ∧
    (((run sampleFailReg sampleFailReqs).diags.filterMap pairDiagKey).count
        ("API_CREDENTIALS", "password") = 1 ∧
      "API_CREDENTIALS" ∉ (run sampleFailReg sampleFailReqs).resources.map Resource.name ∧
      (∀ t res, t ∈ referencedSecrets sampleFailReqs →
        (secretStatus sampleFailReg sampleFailReqs t).2 = some res →
        res ∈ (run sampleFailReg sampleFailReqs).resources) ∧
      (∀ i q d, sampleFailReqs[i]? = some q →
        planOne sampleFailReg ((runMat sampleFailReg sampleFailReqs).map Prod.fst) i q =
          .error d →
        ((run sampleFailReg sampleFailReqs).diags.filterMap reqDiagKey).count i = 1) ∧
      (∀ i : Nat,
        ((run sampleFailReg sampleFailReqs).diags.filterMap reqDiagKey).count i ≤ 1)) ∧
    ((run sampleFailReg sampleFailReqs).diags.filterMap reqDiagKey).count 0 = 1 :=
  ⟨⟨by decide, by decide⟩,
    failure_isolation_and_diagnostics sampleFailReg sampleFailReqs
      "API_CREDENTIALS" "password" (by decide) (by decide),
    (failure_isolation_and_diagnostics sampleFailReg sampleFailReqs
        "API_CREDENTIALS" "password" (by decide) (by decide)).2.2.2.1 0
      ⟨"API_CREDENTIALS", "password", "my-app", "env", "API_PASSWORD"⟩
      (Diag.UpstreamSecretFailed 0 "API_CREDENTIALS") rfl rfl⟩

end Kubricate
